import Mathlib

/-!
Verification of the Minesweeper board engine (`src/minesweeper.rs`).

The Rust types are embedded shallowly:

* `Field` is the per-cell struct; its private Rust fields become the
  structure fields `mine`, `revealed`, `flagged`, `adjacent`, and the
  public accessors `is_mine`, `is_revealed`, `is_flagged`,
  `adjacent_mines` are translated as Lean functions on `Field`.
* the Rust board `Vec<Vec<Field>>` (always a `dy`-list of rows of length
  `dx`) is embedded as a total function `Nat → Nat → Field` together with
  the dimensions stored in the game struct; indexing `board[y][x]` with
  `y ≥ dy` or `x ≥ dx` panics in Rust, which the fallible operations
  (`reveal`, `flag`) model by returning `none`.
* `SystemTime` (the `start` field) carries no game logic and no claim
  mentions it, so it is omitted from the state.
* `thread_rng`/`choose_multiple` in `restart` is modelled by passing the
  sampled flat indices as an explicit `List Nat` argument; the library
  guarantees the sample is duplicate-free, drawn from `0..dx*dy`, and of
  length `min mine_count (dx*dy)` (it clamps, it does not panic), and
  theorems state those facts as hypotheses where they matter.
* `print_board` and `seconds_running` are debug/clock glue with no effect
  on the game state and are not modelled.
-/

namespace Mines

inductive GameStatus
  | Win
  | GameOver
  | Running
deriving DecidableEq

structure Settings where
  dx : Nat
  dy : Nat
  mine_count : Nat

/-- Per-cell state, mirroring the private fields of the Rust `Field` struct. -/
structure Field where
  mine : Bool
  revealed : Bool
  flagged : Bool
  adjacent : Nat
deriving DecidableEq

instance : Inhabited Field := ⟨⟨false, false, false, 0⟩⟩

/-- Rust `Field::default()`: all fields zeroed. -/
def Field.default : Field := ⟨false, false, false, 0⟩

/-- Accessor `Field::is_mine`: hides the mine bit while the cell is unrevealed. -/
def Field.is_mine (f : Field) : Bool :=
  if !f.revealed then false else f.mine

/-- Accessor `Field::is_revealed`. -/
def Field.is_revealed (f : Field) : Bool := f.revealed

/-- Accessor `Field::is_flagged`. -/
def Field.is_flagged (f : Field) : Bool := f.flagged

/-- Accessor `Field::adjacent_mines`: hides the count while the cell is unrevealed. -/
def Field.adjacent_mines (f : Field) : Nat :=
  if !f.revealed then 0 else f.adjacent

/-- Board of the game: row-major, `board y x` is the cell in row `y`, column `x`. -/
abbrev Board : Type := Nat → Nat → Field

/-- Point update of one cell of the board. -/
def modifyCell (b : Board) (x y : Nat) (h : Field → Field) : Board :=
  fun v u => if v = y ∧ u = x then h (b v u) else b v u

/-- Game state, mirroring the Rust `Minesweeper` struct (minus the clock). -/
structure Minesweeper where
  status : GameStatus
  dx : Nat
  dy : Nat
  mine_count : Nat
  revealed_count : Nat
  flagged_count : Nat
  flagged_mines_count : Nat
  board : Board

/-- Mine placement loop of `restart`: for each sampled flat index `i`,
set `board[i / dx][i % dx].is_mine = true`. -/
def place_mines (b : Board) (dx : Nat) (mines : List Nat) : Board :=
  mines.foldl (fun b i => modifyCell b (i % dx) (i / dx) (fun f => { f with mine := true })) b

/-- Increment of one cell's `adjacent_mines` field. -/
def incA (f : Field) : Field := { f with adjacent := f.adjacent + 1 }

/-- Guarded adjacency increment: one of the source's eight statements of the
shape `if guard { self.board[..][..].adjacent_mines += 1; }`. -/
def incC (c : Prop) [Decidable c] (b : Board) (x y : Nat) : Board :=
  if c then modifyCell b x y incA else b

/-- Adjacency increments performed by `restart` for one mine cell `(x, y)`:
each of the up-to-8 Moore neighbours inside the board gets `adjacent_mines += 1`,
with the same eight guarded statements as the source. -/
def inc_neighbors (dx dy : Nat) (b : Board) (x y : Nat) : Board :=
  let b := incC (0 < y ∧ 0 < x) b (x-1) (y-1)
  let b := incC (0 < y) b x (y-1)
  let b := incC (0 < y ∧ x < dx - 1) b (x+1) (y-1)
  let b := incC (0 < x) b (x-1) y
  let b := incC (x < dx - 1) b (x+1) y
  let b := incC (y < dy - 1 ∧ 0 < x) b (x-1) (y+1)
  let b := incC (y < dy - 1) b x (y+1)
  let b := incC (y < dy - 1 ∧ x < dx - 1) b (x+1) (y+1)
  b

/-- Adjacency pass of `restart`: scan the board row-major and, for every mine
cell, apply `inc_neighbors`.  The scan reads the mine bit from the evolving
board, exactly as the source does (the pass never changes mine bits). -/
def calc_adjacents (dx dy : Nat) (b : Board) : Board :=
  (List.range dy).foldl (fun b y =>
    (List.range dx).foldl (fun b x =>
      if (b y x).mine then inc_neighbors dx dy b x y else b) b) b

/-- Rust `Minesweeper::restart`, with the random sample passed explicitly.
Resets status and counters, rebuilds a zeroed board, places the sampled
mines, and recomputes adjacency.  Settings (`dx`, `dy`, `mine_count`) are
left untouched. -/
def restart (g : Minesweeper) (mines : List Nat) : Minesweeper :=
  let b0 : Board := fun _ _ => Field.default
  let b1 := place_mines b0 g.dx mines
  let b2 := calc_adjacents g.dx g.dy b1
  { g with
    status := GameStatus.Running
    revealed_count := 0
    flagged_count := 0
    flagged_mines_count := 0
    board := b2 }

/-- Rust free function `new`: build the struct with a zeroed board and call
`restart` on it. -/
def new (set : Settings) (mines : List Nat) : Minesweeper :=
  restart
    { status := GameStatus.Running
      dx := set.dx
      dy := set.dy
      mine_count := set.mine_count
      revealed_count := 0
      flagged_count := 0
      flagged_mines_count := 0
      board := fun _ _ => Field.default }
    mines

/-- Rust `Minesweeper::check_win`: two sequential `if` statements, either of
which sets `status = Win`. -/
def check_win (g : Minesweeper) : Minesweeper :=
  let g := if g.dx * g.dy = g.revealed_count + g.mine_count
    then { g with status := GameStatus.Win } else g
  if g.flagged_mines_count = g.mine_count
    then { g with status := GameStatus.Win } else g

/-- Fuelled form of the recursive `Minesweeper::reveal_zeros`.  The source
recursion terminates because every recursive call first reveals a previously
unrevealed in-bounds cell, so the recursion depth is bounded by the number of
unrevealed cells; `reveal_zeros` below supplies fuel `dx*dy + 1`, which the
flood lemmas prove sufficient.  Apart from the fuel the body is a literal
transcription: skip revealed or flagged cells, reveal and count the cell,
stop at numbered cells, else recurse into the eight guarded neighbours in
source order. -/
def reveal_zeros_go : Nat → Minesweeper → Nat → Nat → Minesweeper
  | 0, g, _, _ => g
  | fuel+1, g, x, y =>
    let f := g.board y x
    if f.revealed || f.flagged then g
    else
      let g1 : Minesweeper :=
        { g with
          board := modifyCell g.board x y (fun f => { f with revealed := true })
          revealed_count := g.revealed_count + 1 }
      if f.adjacent ≠ 0 then g1
      else
        let g2 := if 0 < y ∧ 0 < x then reveal_zeros_go fuel g1 (x-1) (y-1) else g1
        let g3 := if 0 < y then reveal_zeros_go fuel g2 x (y-1) else g2
        let g4 := if 0 < y ∧ x < g.dx - 1 then reveal_zeros_go fuel g3 (x+1) (y-1) else g3
        let g5 := if 0 < x then reveal_zeros_go fuel g4 (x-1) y else g4
        let g6 := if x < g.dx - 1 then reveal_zeros_go fuel g5 (x+1) y else g5
        let g7 := if y < g.dy - 1 ∧ 0 < x then reveal_zeros_go fuel g6 (x-1) (y+1) else g6
        let g8 := if y < g.dy - 1 then reveal_zeros_go fuel g7 x (y+1) else g7
        let g9 := if y < g.dy - 1 ∧ x < g.dx - 1 then reveal_zeros_go fuel g8 (x+1) (y+1) else g8
        g9

/-- Rust `Minesweeper::reveal_zeros` (the private flood-fill helper), run with
sufficient fuel.  The source indexes the board unconditionally and is only
ever invoked on in-bounds coordinates. -/
def reveal_zeros (g : Minesweeper) (x y : Nat) : Minesweeper :=
  reveal_zeros_go (g.dx * g.dy + 1) g x y

/-- Rust `Minesweeper::reveal`.  Order as in the source: the status guard
returns the game unchanged; then `self.board[y][x]` is indexed, which panics
(`none`) out of bounds; a revealed or flagged cell is a no-op; a mine is
revealed, counted and ends the game; a zero cell floods; any other cell is
revealed and counted; finally `check_win` runs. -/
def reveal (g : Minesweeper) (x y : Nat) : Option Minesweeper :=
  if g.status ≠ GameStatus.Running then some g
  else if y < g.dy ∧ x < g.dx then
    let f := g.board y x
    if f.revealed || f.flagged then some g
    else if f.mine then
      some (check_win
        { g with
          board := modifyCell g.board x y (fun f => { f with revealed := true })
          revealed_count := g.revealed_count + 1
          status := GameStatus.GameOver })
    else if f.adjacent = 0 then
      some (check_win (reveal_zeros g x y))
    else
      some (check_win
        { g with
          board := modifyCell g.board x y (fun f => { f with revealed := true })
          revealed_count := g.revealed_count + 1 })
  else none

/-- Rust `Minesweeper::flag`.  Order as in the source: status guard, then the
panicking index, then the revealed-cell no-op, then the toggle with its
counter updates, then `check_win`. -/
def flag (g : Minesweeper) (x y : Nat) : Option Minesweeper :=
  if g.status ≠ GameStatus.Running then some g
  else if y < g.dy ∧ x < g.dx then
    let f := g.board y x
    if f.revealed then some g
    else if f.flagged then
      some (check_win
        { g with
          board := modifyCell g.board x y (fun f => { f with flagged := false })
          flagged_count := g.flagged_count - 1
          flagged_mines_count :=
            if f.mine then g.flagged_mines_count - 1 else g.flagged_mines_count })
    else
      some (check_win
        { g with
          board := modifyCell g.board x y (fun f => { f with flagged := true })
          flagged_count := g.flagged_count + 1
          flagged_mines_count :=
            if f.mine then g.flagged_mines_count + 1 else g.flagged_mines_count })
  else none

/-- Count of the in-bounds cells of a board satisfying a predicate. -/
def countB (dx dy : Nat) (b : Board) (p : Field → Bool) : Nat :=
  ∑ v ∈ Finset.range dy, ∑ u ∈ Finset.range dx, if p (b v u) then 1 else 0

/-- Number of revealed cells on the board, recounted directly. -/
def recountRevealed (g : Minesweeper) : Nat := countB g.dx g.dy g.board (·.revealed)

/-- Number of flagged cells on the board, recounted directly. -/
def recountFlagged (g : Minesweeper) : Nat := countB g.dx g.dy g.board (·.flagged)

/-- Number of flagged mine cells on the board, recounted directly. -/
def recountFlaggedMines (g : Minesweeper) : Nat :=
  countB g.dx g.dy g.board (fun f => f.flagged && f.mine)

/-- Number of mine cells on the board. -/
def countMines (g : Minesweeper) : Nat := countB g.dx g.dy g.board (·.mine)

/-- Number of unrevealed in-bounds cells; the termination measure of the
flood fill. -/
def unrevCount (g : Minesweeper) : Nat := countB g.dx g.dy g.board (fun f => !f.revealed)

/-- Consistency of the three cached counters with a direct recount over the
board. -/
def CountInv (g : Minesweeper) : Prop :=
  g.revealed_count = recountRevealed g ∧ g.flagged_count = recountFlagged g ∧
  g.flagged_mines_count = recountFlaggedMines g

/-- Moore adjacency of two coordinates: Chebyshev distance at most 1 and not
the same cell. -/
def moore (x y u v : Nat) : Prop :=
  x ≤ u + 1 ∧ u ≤ x + 1 ∧ y ≤ v + 1 ∧ v ≤ y + 1 ∧ ¬(u = x ∧ v = y)

instance (x y u v : Nat) : Decidable (moore x y u v) :=
  inferInstanceAs (Decidable (x ≤ u + 1 ∧ u ≤ x + 1 ∧ y ≤ v + 1 ∧ v ≤ y + 1 ∧ ¬(u = x ∧ v = y)))

/-- Number of mine cells among the in-bounds Moore neighbours of `(x, y)`. -/
def mine_neighbors (g : Minesweeper) (x y : Nat) : Nat :=
  ∑ v ∈ Finset.range g.dy, ∑ u ∈ Finset.range g.dx,
    if (g.board v u).mine = true ∧ moore x y u v then 1 else 0

/-- Guarded recursive call of the flood fill: recurse when the source's bounds
guard holds, otherwise leave the state unchanged.  `reveal_zeros_go (n+1)` is
definitionally a chain of eight of these. -/
def goC (fuel : Nat) (c : Prop) [Decidable c] (g : Minesweeper) (x y : Nat) : Minesweeper :=
  if c then reveal_zeros_go fuel g x y else g

/-- State reached by revealing the cell `(x, y)` and incrementing
`revealed_count`, the single mutation step shared by `reveal` and the flood
fill. -/
def revealCell (g : Minesweeper) (x y : Nat) : Minesweeper :=
  { g with
    board := modifyCell g.board x y (fun f => { f with revealed := true })
    revealed_count := g.revealed_count + 1 }

/-- Facts preserved by any run of the flood fill: dimensions, status,
settings and flag counters are untouched; the mine, flag and adjacency data
of every cell are untouched; revealing is monotone. -/
def FloodInv (g g' : Minesweeper) : Prop :=
  g'.status = g.status ∧ g'.dx = g.dx ∧ g'.dy = g.dy ∧
  g'.mine_count = g.mine_count ∧
  g'.flagged_count = g.flagged_count ∧
  g'.flagged_mines_count = g.flagged_mines_count ∧
  (∀ v u, (g'.board v u).mine = (g.board v u).mine ∧
    (g'.board v u).flagged = (g.board v u).flagged ∧
    (g'.board v u).adjacent = (g.board v u).adjacent) ∧
  (∀ v u, (g.board v u).revealed = true → (g'.board v u).revealed = true)

/-- Closure of a set of coordinates under the flood step: from any in-bounds
member with zero adjacency count, every in-bounds Moore neighbour is again a
member. -/
def RClosed (R : Nat → Nat → Prop) (g : Minesweeper) : Prop :=
  ∀ u v, u < g.dx → v < g.dy → R u v → (g.board v u).adjacent = 0 →
    ∀ u' v', u' < g.dx → v' < g.dy → moore u v u' v' → R u' v'

/-- No member of the coordinate set is flagged on the board. -/
def RUnflagged (R : Nat → Nat → Prop) (g : Minesweeper) : Prop :=
  ∀ u v, u < g.dx → v < g.dy → R u v → (g.board v u).flagged = false

/-- Behaviour of one (possibly skipped) flood-fill call from state `g` to
state `g'`, relative to a coordinate set `R`: the untouched data is
preserved (`FloodInv`), every newly revealed cell lies in `R` (soundness),
and every newly revealed zero cell has all its in-bounds Moore neighbours
revealed in `g'` (expansion). -/
def FloodCall (R : Nat → Nat → Prop) (g g' : Minesweeper) : Prop :=
  FloodInv g g' ∧
  (∀ u v, (g'.board v u).revealed = true →
    (g.board v u).revealed = true ∨ R u v) ∧
  (∀ u v, u < g.dx → v < g.dy → (g.board v u).revealed = false →
    (g'.board v u).revealed = true → (g.board v u).adjacent = 0 →
    ∀ u' v', u' < g.dx → v' < g.dy → moore u v u' v' →
      (g'.board v' u').revealed = true)

/-- Connected component of zero-adjacency cells of `g` containing the
in-bounds zero cell `(sx, sy)`: every cell 8-connected to the start through
zero-adjacency in-bounds cells. -/
inductive ZeroRegion (g : Minesweeper) (sx sy : Nat) : Nat → Nat → Prop
  | base : sx < g.dx → sy < g.dy → (g.board sy sx).adjacent = 0 →
      ZeroRegion g sx sy sx sy
  | step : ∀ {x y u v : Nat}, ZeroRegion g sx sy x y → moore x y u v →
      u < g.dx → v < g.dy → (g.board v u).adjacent = 0 →
      ZeroRegion g sx sy u v

/-- Numbered border of the zero region: an in-bounds cell with nonzero
adjacency count that is Moore-adjacent to some cell of the region. -/
def Border (g : Minesweeper) (sx sy u v : Nat) : Prop :=
  u < g.dx ∧ v < g.dy ∧ (g.board v u).adjacent ≠ 0 ∧
  ∃ x y, ZeroRegion g sx sy x y ∧ moore x y u v

/-- Game states reachable by the engine API: a `new` game followed by any
sequence of `restart`, successful `reveal` and successful `flag` calls. -/
inductive Reached : Minesweeper → Prop
  | start : ∀ (set : Settings) (mines : List Nat), Reached (new set mines)
  | restart_step : ∀ {g : Minesweeper} (mines : List Nat), Reached g →
      Reached (restart g mines)
  | reveal_step : ∀ {g g' : Minesweeper} (x y : Nat), Reached g →
      reveal g x y = some g' → Reached g'
  | flag_step : ∀ {g g' : Minesweeper} (x y : Nat), Reached g →
      flag g x y = some g' → Reached g'

/-- Game states reachable from a given state by successful `reveal` and
`flag` calls only (one fixed board, no restart in between). -/
inductive ReachedFrom (g0 : Minesweeper) : Minesweeper → Prop
  | base : ReachedFrom g0 g0
  | reveal_step : ∀ {g g' : Minesweeper} (x y : Nat), ReachedFrom g0 g →
      reveal g x y = some g' → ReachedFrom g0 g'
  | flag_step : ∀ {g g' : Minesweeper} (x y : Nat), ReachedFrom g0 g →
      flag g x y = some g' → ReachedFrom g0 g'

/-- Example game: 2 by 2 board, one mine at flat index 0, i.e. at `(0, 0)`. -/
def gEx2 : Minesweeper := new ⟨2, 2, 1⟩ [0]

/-- Example trace for the loss condition: on `gEx2` reveal the two non-mine
cells `(1, 0)` and `(0, 1)`, then reveal the mine `(0, 0)`; the resulting
status is reported. -/
def lossTraceStatus : Option GameStatus :=
  (reveal gEx2 1 0).bind fun g =>
    (reveal g 0 1).bind fun g =>
      (reveal g 0 0).map Minesweeper.status

/-- Example game: 4 by 1 board, one mine at flat index 3, i.e. at `(3, 0)`.
Cells `(0, 0)` and `(1, 0)` have adjacency 0, cell `(2, 0)` has adjacency 1. -/
def gEx4 : Minesweeper := new ⟨4, 1, 1⟩ [3]

/-- The example game `gEx4` after flagging the zero cell `(1, 0)`. -/
def gEx4f : Minesweeper := (flag gEx4 1 0).getD gEx4

/-- The flagged example game after revealing the zero cell `(0, 0)`. -/
def gEx4r : Minesweeper := (reveal gEx4f 0 0).getD gEx4f

/-- Example game: 1 by 1 board with zero mines, freshly created. -/
def gEx0 : Minesweeper := new ⟨1, 1, 0⟩ []

/-- Example game: 2 by 1 board, one mine at `(0, 0)`, freshly created. -/
def gEx21 : Minesweeper := new ⟨2, 1, 1⟩ [0]

/-- The example game `gEx21` after flagging its mine cell `(0, 0)`. -/
def gEx21f : Minesweeper := (flag gEx21 0 0).getD gEx21

/-- Example of a finished game state, used to exercise the terminal no-ops. -/
def gExWin : Minesweeper :=
  { status := GameStatus.Win
    dx := 1
    dy := 1
    mine_count := 0
    revealed_count := 0
    flagged_count := 0
    flagged_mines_count := 0
    board := fun _ _ => Field.default }

/-- Example game for the clamped oversampling case: 2 by 1 board whose
settings ask for 5 mines; the sample is clamped to the whole cell space. -/
def gExClamp : Minesweeper := new ⟨2, 1, 5⟩ [0, 1]

lemma modifyCell_same (b : Board) (x y : Nat) (h : Field → Field) :
    modifyCell b x y h y x = h (b y x) := by
  simp [modifyCell]

lemma modifyCell_other (b : Board) (x y : Nat) (h : Field → Field) {v u : Nat}
    (hne : ¬(v = y ∧ u = x)) : modifyCell b x y h v u = b v u := by
  simp only [modifyCell, if_neg hne]

lemma countB_congr {dx dy : Nat} {b b' : Board} {p q : Field → Bool}
    (h : ∀ v u, v < dy → u < dx → p (b v u) = q (b' v u)) :
    countB dx dy b p = countB dx dy b' q := by
  unfold countB
  refine Finset.sum_congr rfl fun v hv => Finset.sum_congr rfl fun u hu => ?_
  rw [h v u (Finset.mem_range.mp hv) (Finset.mem_range.mp hu)]

lemma countB_mono {dx dy : Nat} {b b' : Board} {p q : Field → Bool}
    (h : ∀ v u, v < dy → u < dx → p (b v u) = true → q (b' v u) = true) :
    countB dx dy b p ≤ countB dx dy b' q := by
  unfold countB
  refine Finset.sum_le_sum fun v hv => Finset.sum_le_sum fun u hu => ?_
  by_cases hp : p (b v u) = true
  · rw [if_pos hp, if_pos (h v u (Finset.mem_range.mp hv) (Finset.mem_range.mp hu) hp)]
  · rw [if_neg hp]
    exact Nat.zero_le _

lemma countB_pos {dx dy : Nat} {b : Board} {p : Field → Bool} {v u : Nat}
    (hv : v < dy) (hu : u < dx) (h : p (b v u) = true) : 1 ≤ countB dx dy b p := by
  unfold countB
  have h1 : (if p (b v u) then 1 else 0) ≤ ∑ u' ∈ Finset.range dx, if p (b v u') then 1 else 0 :=
    Finset.single_le_sum (f := fun u' => if p (b v u') then 1 else 0)
      (fun i _ => Nat.zero_le _) (Finset.mem_range.mpr hu)
  have h2 : (∑ u' ∈ Finset.range dx, if p (b v u') then 1 else 0)
      ≤ ∑ v' ∈ Finset.range dy, ∑ u' ∈ Finset.range dx, if p (b v' u') then 1 else 0 :=
    Finset.single_le_sum
      (f := fun v' => ∑ u' ∈ Finset.range dx, if p (b v' u') then 1 else 0)
      (fun i _ => Nat.zero_le _) (Finset.mem_range.mpr hv)
  rw [if_pos h] at h1
  exact le_trans h1 h2

lemma countB_update (dx dy : Nat) (b : Board) (x y : Nat) (h : Field → Field)
    (p : Field → Bool) (hx : x < dx) (hy : y < dy) :
    countB dx dy (modifyCell b x y h) p + (if p (b y x) then 1 else 0)
      = countB dx dy b p + (if p (h (b y x)) then 1 else 0) := by
  have hyy : y ∈ Finset.range dy := Finset.mem_range.mpr hy
  have hxx : x ∈ Finset.range dx := Finset.mem_range.mpr hx
  have hrow : ∀ (b' : Board), (∑ u ∈ Finset.range dx, if p (b' y u) then 1 else 0)
      = (∑ u ∈ (Finset.range dx).erase x, if p (b' y u) then 1 else 0)
        + (if p (b' y x) then 1 else 0) :=
    fun b' => (Finset.sum_erase_add _ _ hxx).symm
  have hcol : ∀ (b' : Board),
      (∑ v ∈ Finset.range dy, ∑ u ∈ Finset.range dx, if p (b' v u) then 1 else 0)
      = (∑ v ∈ (Finset.range dy).erase y, ∑ u ∈ Finset.range dx, if p (b' v u) then 1 else 0)
        + (∑ u ∈ Finset.range dx, if p (b' y u) then 1 else 0) :=
    fun b' => (Finset.sum_erase_add _ _ hyy).symm
  unfold countB
  rw [hcol, hcol b, hrow, hrow b]
  have hout : (∑ v ∈ (Finset.range dy).erase y, ∑ u ∈ Finset.range dx,
      if p (modifyCell b x y h v u) then 1 else 0)
      = ∑ v ∈ (Finset.range dy).erase y, ∑ u ∈ Finset.range dx, if p (b v u) then 1 else 0 := by
    refine Finset.sum_congr rfl fun v hv => Finset.sum_congr rfl fun u _ => ?_
    rw [modifyCell_other _ _ _ _ (fun hc => (Finset.mem_erase.mp hv).1 hc.1)]
  have hin : (∑ u ∈ (Finset.range dx).erase x,
      if p (modifyCell b x y h y u) then 1 else 0)
      = ∑ u ∈ (Finset.range dx).erase x, if p (b y u) then 1 else 0 := by
    refine Finset.sum_congr rfl fun u hu => ?_
    rw [modifyCell_other _ _ _ _ (fun hc => (Finset.mem_erase.mp hu).1 hc.2)]
  rw [hout, hin, modifyCell_same]
  omega

lemma reveal_zeros_go_succ (n : Nat) (g : Minesweeper) (x y : Nat) :
    reveal_zeros_go (n+1) g x y =
      (if (g.board y x).revealed || (g.board y x).flagged then g
       else
         if (g.board y x).adjacent ≠ 0 then revealCell g x y
         else
           let g2 := goC n (0 < y ∧ 0 < x) (revealCell g x y) (x-1) (y-1)
           let g3 := goC n (0 < y) g2 x (y-1)
           let g4 := goC n (0 < y ∧ x < g.dx - 1) g3 (x+1) (y-1)
           let g5 := goC n (0 < x) g4 (x-1) y
           let g6 := goC n (x < g.dx - 1) g5 (x+1) y
           let g7 := goC n (y < g.dy - 1 ∧ 0 < x) g6 (x-1) (y+1)
           let g8 := goC n (y < g.dy - 1) g7 x (y+1)
           goC n (y < g.dy - 1 ∧ x < g.dx - 1) g8 (x+1) (y+1)) := rfl

lemma floodInv_refl (g : Minesweeper) : FloodInv g g :=
  ⟨rfl, rfl, rfl, rfl, rfl, rfl, fun _ _ => ⟨rfl, rfl, rfl⟩, fun _ _ h => h⟩

lemma floodInv_trans {g1 g2 g3 : Minesweeper} (h12 : FloodInv g1 g2)
    (h23 : FloodInv g2 g3) : FloodInv g1 g3 := by
  obtain ⟨s12, x12, y12, m12, f12, fm12, b12, r12⟩ := h12
  obtain ⟨s23, x23, y23, m23, f23, fm23, b23, r23⟩ := h23
  refine ⟨s23.trans s12, x23.trans x12, y23.trans y12, m23.trans m12,
    f23.trans f12, fm23.trans fm12, fun v u => ?_, fun v u h => r23 v u (r12 v u h)⟩
  exact ⟨((b23 v u).1).trans (b12 v u).1, ((b23 v u).2.1).trans (b12 v u).2.1,
    ((b23 v u).2.2).trans (b12 v u).2.2⟩

lemma floodInv_revealCell (g : Minesweeper) (x y : Nat) :
    FloodInv g (revealCell g x y) := by
  refine ⟨rfl, rfl, rfl, rfl, rfl, rfl, fun v u => ?_, fun v u h => ?_⟩
  · by_cases hc : v = y ∧ u = x <;> simp [revealCell, modifyCell, hc]
  · by_cases hc : v = y ∧ u = x <;> simp [revealCell, modifyCell, hc, h]

lemma go_floodInv (n : Nat) : ∀ (g : Minesweeper) (x y : Nat),
    FloodInv g (reveal_zeros_go n g x y) := by
  induction n with
  | zero => exact fun g x y => floodInv_refl g
  | succ n ih =>
    intro g x y
    rw [reveal_zeros_go_succ]
    by_cases h1 : ((g.board y x).revealed || (g.board y x).flagged) = true
    · rw [if_pos h1]
      exact floodInv_refl g
    · rw [if_neg h1]
      by_cases h2 : (g.board y x).adjacent ≠ 0
      · rw [if_pos h2]
        exact floodInv_revealCell g x y
      · rw [if_neg h2]
        have s : ∀ (c : Prop) [Decidable c] (g' : Minesweeper) (x' y' : Nat),
            FloodInv g g' → FloodInv g (goC n c g' x' y') := by
          intro c hc g' x' y' h
          unfold goC
          split
          · exact floodInv_trans h (ih g' x' y')
          · exact h
        exact s _ _ _ _ (s _ _ _ _ (s _ _ _ _ (s _ _ _ _ (s _ _ _ _ (s _ _ _ _
          (s _ _ _ _ (s _ _ _ _ (floodInv_revealCell g x y))))))))

lemma goC_floodInv (n : Nat) (c : Prop) [Decidable c] (g : Minesweeper)
    (x y : Nat) : FloodInv g (goC n c g x y) := by
  unfold goC
  split
  · exact go_floodInv n g x y
  · exact floodInv_refl g

lemma incC_mine (c : Prop) [Decidable c] (b : Board) (x y v u : Nat) :
    ((incC c b x y) v u).mine = (b v u).mine := by
  unfold incC
  split
  · by_cases h : v = y ∧ u = x <;> simp [modifyCell, incA, h]
  · rfl

lemma incC_revealed (c : Prop) [Decidable c] (b : Board) (x y v u : Nat) :
    ((incC c b x y) v u).revealed = (b v u).revealed := by
  unfold incC
  split
  · by_cases h : v = y ∧ u = x <;> simp [modifyCell, incA, h]
  · rfl

lemma incC_flagged (c : Prop) [Decidable c] (b : Board) (x y v u : Nat) :
    ((incC c b x y) v u).flagged = (b v u).flagged := by
  unfold incC
  split
  · by_cases h : v = y ∧ u = x <;> simp [modifyCell, incA, h]
  · rfl

lemma incC_adjacent (c : Prop) [Decidable c] (b : Board) (x y v u : Nat) :
    ((incC c b x y) v u).adjacent
      = (b v u).adjacent + (if c ∧ v = y ∧ u = x then 1 else 0) := by
  unfold incC
  by_cases hc : c
  · rw [if_pos hc]
    by_cases h : v = y ∧ u = x <;> simp [modifyCell, incA, h, hc]
  · rw [if_neg hc]
    simp [hc]

lemma inc_neighbors_mine (dx dy : Nat) (b : Board) (x y v u : Nat) :
    ((inc_neighbors dx dy b x y) v u).mine = (b v u).mine := by
  simp only [inc_neighbors, incC_mine]

lemma inc_neighbors_revealed (dx dy : Nat) (b : Board) (x y v u : Nat) :
    ((inc_neighbors dx dy b x y) v u).revealed = (b v u).revealed := by
  simp only [inc_neighbors, incC_revealed]

lemma inc_neighbors_flagged (dx dy : Nat) (b : Board) (x y v u : Nat) :
    ((inc_neighbors dx dy b x y) v u).flagged = (b v u).flagged := by
  simp only [inc_neighbors, incC_flagged]

lemma inc_neighbors_adjacent (dx dy : Nat) (b : Board) {x y u v : Nat}
    (hu : u < dx) (hv : v < dy) :
    ((inc_neighbors dx dy b x y) v u).adjacent
      = (b v u).adjacent + (if moore x y u v then 1 else 0) := by
  simp only [inc_neighbors, incC_adjacent]
  unfold moore
  have hcase : (u + 1 = x ∧ v + 1 = y) ∨ (u = x ∧ v + 1 = y) ∨ (u = x + 1 ∧ v + 1 = y)
      ∨ (u + 1 = x ∧ v = y) ∨ (u = x ∧ v = y) ∨ (u = x + 1 ∧ v = y)
      ∨ (u + 1 = x ∧ v = y + 1) ∨ (u = x ∧ v = y + 1) ∨ (u = x + 1 ∧ v = y + 1)
      ∨ (u + 1 < x ∨ x + 1 < u ∨ v + 1 < y ∨ y + 1 < v) := by omega
  rcases hcase with h | h | h | h | h | h | h | h | h | h
  · rw [if_pos (c := (0 < y ∧ 0 < x) ∧ v = y - 1 ∧ u = x - 1) (by omega),
      if_neg (c := 0 < y ∧ v = y - 1 ∧ u = x) (by omega),
      if_neg (c := (0 < y ∧ x < dx - 1) ∧ v = y - 1 ∧ u = x + 1) (by omega),
      if_neg (c := 0 < x ∧ v = y ∧ u = x - 1) (by omega),
      if_neg (c := x < dx - 1 ∧ v = y ∧ u = x + 1) (by omega),
      if_neg (c := (y < dy - 1 ∧ 0 < x) ∧ v = y + 1 ∧ u = x - 1) (by omega),
      if_neg (c := y < dy - 1 ∧ v = y + 1 ∧ u = x) (by omega),
      if_neg (c := (y < dy - 1 ∧ x < dx - 1) ∧ v = y + 1 ∧ u = x + 1) (by omega),
      if_pos (c := x ≤ u + 1 ∧ u ≤ x + 1 ∧ y ≤ v + 1 ∧ v ≤ y + 1 ∧ ¬(u = x ∧ v = y)) (by omega)]
  · rw [if_neg (c := (0 < y ∧ 0 < x) ∧ v = y - 1 ∧ u = x - 1) (by omega),
      if_pos (c := 0 < y ∧ v = y - 1 ∧ u = x) (by omega),
      if_neg (c := (0 < y ∧ x < dx - 1) ∧ v = y - 1 ∧ u = x + 1) (by omega),
      if_neg (c := 0 < x ∧ v = y ∧ u = x - 1) (by omega),
      if_neg (c := x < dx - 1 ∧ v = y ∧ u = x + 1) (by omega),
      if_neg (c := (y < dy - 1 ∧ 0 < x) ∧ v = y + 1 ∧ u = x - 1) (by omega),
      if_neg (c := y < dy - 1 ∧ v = y + 1 ∧ u = x) (by omega),
      if_neg (c := (y < dy - 1 ∧ x < dx - 1) ∧ v = y + 1 ∧ u = x + 1) (by omega),
      if_pos (c := x ≤ u + 1 ∧ u ≤ x + 1 ∧ y ≤ v + 1 ∧ v ≤ y + 1 ∧ ¬(u = x ∧ v = y)) (by omega)]
  · rw [if_neg (c := (0 < y ∧ 0 < x) ∧ v = y - 1 ∧ u = x - 1) (by omega),
      if_neg (c := 0 < y ∧ v = y - 1 ∧ u = x) (by omega),
      if_pos (c := (0 < y ∧ x < dx - 1) ∧ v = y - 1 ∧ u = x + 1) (by omega),
      if_neg (c := 0 < x ∧ v = y ∧ u = x - 1) (by omega),
      if_neg (c := x < dx - 1 ∧ v = y ∧ u = x + 1) (by omega),
      if_neg (c := (y < dy - 1 ∧ 0 < x) ∧ v = y + 1 ∧ u = x - 1) (by omega),
      if_neg (c := y < dy - 1 ∧ v = y + 1 ∧ u = x) (by omega),
      if_neg (c := (y < dy - 1 ∧ x < dx - 1) ∧ v = y + 1 ∧ u = x + 1) (by omega),
      if_pos (c := x ≤ u + 1 ∧ u ≤ x + 1 ∧ y ≤ v + 1 ∧ v ≤ y + 1 ∧ ¬(u = x ∧ v = y)) (by omega)]
  · rw [if_neg (c := (0 < y ∧ 0 < x) ∧ v = y - 1 ∧ u = x - 1) (by omega),
      if_neg (c := 0 < y ∧ v = y - 1 ∧ u = x) (by omega),
      if_neg (c := (0 < y ∧ x < dx - 1) ∧ v = y - 1 ∧ u = x + 1) (by omega),
      if_pos (c := 0 < x ∧ v = y ∧ u = x - 1) (by omega),
      if_neg (c := x < dx - 1 ∧ v = y ∧ u = x + 1) (by omega),
      if_neg (c := (y < dy - 1 ∧ 0 < x) ∧ v = y + 1 ∧ u = x - 1) (by omega),
      if_neg (c := y < dy - 1 ∧ v = y + 1 ∧ u = x) (by omega),
      if_neg (c := (y < dy - 1 ∧ x < dx - 1) ∧ v = y + 1 ∧ u = x + 1) (by omega),
      if_pos (c := x ≤ u + 1 ∧ u ≤ x + 1 ∧ y ≤ v + 1 ∧ v ≤ y + 1 ∧ ¬(u = x ∧ v = y)) (by omega)]
  · rw [if_neg (c := (0 < y ∧ 0 < x) ∧ v = y - 1 ∧ u = x - 1) (by omega),
      if_neg (c := 0 < y ∧ v = y - 1 ∧ u = x) (by omega),
      if_neg (c := (0 < y ∧ x < dx - 1) ∧ v = y - 1 ∧ u = x + 1) (by omega),
      if_neg (c := 0 < x ∧ v = y ∧ u = x - 1) (by omega),
      if_neg (c := x < dx - 1 ∧ v = y ∧ u = x + 1) (by omega),
      if_neg (c := (y < dy - 1 ∧ 0 < x) ∧ v = y + 1 ∧ u = x - 1) (by omega),
      if_neg (c := y < dy - 1 ∧ v = y + 1 ∧ u = x) (by omega),
      if_neg (c := (y < dy - 1 ∧ x < dx - 1) ∧ v = y + 1 ∧ u = x + 1) (by omega),
      if_neg (c := x ≤ u + 1 ∧ u ≤ x + 1 ∧ y ≤ v + 1 ∧ v ≤ y + 1 ∧ ¬(u = x ∧ v = y)) (by omega)]
  · rw [if_neg (c := (0 < y ∧ 0 < x) ∧ v = y - 1 ∧ u = x - 1) (by omega),
      if_neg (c := 0 < y ∧ v = y - 1 ∧ u = x) (by omega),
      if_neg (c := (0 < y ∧ x < dx - 1) ∧ v = y - 1 ∧ u = x + 1) (by omega),
      if_neg (c := 0 < x ∧ v = y ∧ u = x - 1) (by omega),
      if_pos (c := x < dx - 1 ∧ v = y ∧ u = x + 1) (by omega),
      if_neg (c := (y < dy - 1 ∧ 0 < x) ∧ v = y + 1 ∧ u = x - 1) (by omega),
      if_neg (c := y < dy - 1 ∧ v = y + 1 ∧ u = x) (by omega),
      if_neg (c := (y < dy - 1 ∧ x < dx - 1) ∧ v = y + 1 ∧ u = x + 1) (by omega),
      if_pos (c := x ≤ u + 1 ∧ u ≤ x + 1 ∧ y ≤ v + 1 ∧ v ≤ y + 1 ∧ ¬(u = x ∧ v = y)) (by omega)]
  · rw [if_neg (c := (0 < y ∧ 0 < x) ∧ v = y - 1 ∧ u = x - 1) (by omega),
      if_neg (c := 0 < y ∧ v = y - 1 ∧ u = x) (by omega),
      if_neg (c := (0 < y ∧ x < dx - 1) ∧ v = y - 1 ∧ u = x + 1) (by omega),
      if_neg (c := 0 < x ∧ v = y ∧ u = x - 1) (by omega),
      if_neg (c := x < dx - 1 ∧ v = y ∧ u = x + 1) (by omega),
      if_pos (c := (y < dy - 1 ∧ 0 < x) ∧ v = y + 1 ∧ u = x - 1) (by omega),
      if_neg (c := y < dy - 1 ∧ v = y + 1 ∧ u = x) (by omega),
      if_neg (c := (y < dy - 1 ∧ x < dx - 1) ∧ v = y + 1 ∧ u = x + 1) (by omega),
      if_pos (c := x ≤ u + 1 ∧ u ≤ x + 1 ∧ y ≤ v + 1 ∧ v ≤ y + 1 ∧ ¬(u = x ∧ v = y)) (by omega)]
  · rw [if_neg (c := (0 < y ∧ 0 < x) ∧ v = y - 1 ∧ u = x - 1) (by omega),
      if_neg (c := 0 < y ∧ v = y - 1 ∧ u = x) (by omega),
      if_neg (c := (0 < y ∧ x < dx - 1) ∧ v = y - 1 ∧ u = x + 1) (by omega),
      if_neg (c := 0 < x ∧ v = y ∧ u = x - 1) (by omega),
      if_neg (c := x < dx - 1 ∧ v = y ∧ u = x + 1) (by omega),
      if_neg (c := (y < dy - 1 ∧ 0 < x) ∧ v = y + 1 ∧ u = x - 1) (by omega),
      if_pos (c := y < dy - 1 ∧ v = y + 1 ∧ u = x) (by omega),
      if_neg (c := (y < dy - 1 ∧ x < dx - 1) ∧ v = y + 1 ∧ u = x + 1) (by omega),
      if_pos (c := x ≤ u + 1 ∧ u ≤ x + 1 ∧ y ≤ v + 1 ∧ v ≤ y + 1 ∧ ¬(u = x ∧ v = y)) (by omega)]
  · rw [if_neg (c := (0 < y ∧ 0 < x) ∧ v = y - 1 ∧ u = x - 1) (by omega),
      if_neg (c := 0 < y ∧ v = y - 1 ∧ u = x) (by omega),
      if_neg (c := (0 < y ∧ x < dx - 1) ∧ v = y - 1 ∧ u = x + 1) (by omega),
      if_neg (c := 0 < x ∧ v = y ∧ u = x - 1) (by omega),
      if_neg (c := x < dx - 1 ∧ v = y ∧ u = x + 1) (by omega),
      if_neg (c := (y < dy - 1 ∧ 0 < x) ∧ v = y + 1 ∧ u = x - 1) (by omega),
      if_neg (c := y < dy - 1 ∧ v = y + 1 ∧ u = x) (by omega),
      if_pos (c := (y < dy - 1 ∧ x < dx - 1) ∧ v = y + 1 ∧ u = x + 1) (by omega),
      if_pos (c := x ≤ u + 1 ∧ u ≤ x + 1 ∧ y ≤ v + 1 ∧ v ≤ y + 1 ∧ ¬(u = x ∧ v = y)) (by omega)]
  · rw [if_neg (c := (0 < y ∧ 0 < x) ∧ v = y - 1 ∧ u = x - 1) (by omega),
      if_neg (c := 0 < y ∧ v = y - 1 ∧ u = x) (by omega),
      if_neg (c := (0 < y ∧ x < dx - 1) ∧ v = y - 1 ∧ u = x + 1) (by omega),
      if_neg (c := 0 < x ∧ v = y ∧ u = x - 1) (by omega),
      if_neg (c := x < dx - 1 ∧ v = y ∧ u = x + 1) (by omega),
      if_neg (c := (y < dy - 1 ∧ 0 < x) ∧ v = y + 1 ∧ u = x - 1) (by omega),
      if_neg (c := y < dy - 1 ∧ v = y + 1 ∧ u = x) (by omega),
      if_neg (c := (y < dy - 1 ∧ x < dx - 1) ∧ v = y + 1 ∧ u = x + 1) (by omega),
      if_neg (c := x ≤ u + 1 ∧ u ≤ x + 1 ∧ y ≤ v + 1 ∧ v ≤ y + 1 ∧ ¬(u = x ∧ v = y)) (by omega)]

lemma place_mines_cons (b : Board) (dx i : Nat) (t : List Nat) :
    place_mines b dx (i :: t)
      = place_mines (modifyCell b (i % dx) (i / dx) (fun f => { f with mine := true })) dx t :=
  rfl

lemma place_mines_revealed : ∀ (l : List Nat) (b : Board) (dx v u : Nat),
    ((place_mines b dx l) v u).revealed = (b v u).revealed := by
  intro l
  induction l with
  | nil => intro b dx v u; rfl
  | cons i t ih =>
    intro b dx v u
    rw [place_mines_cons, ih]
    by_cases h : v = i / dx ∧ u = i % dx <;> simp [modifyCell, h]

lemma place_mines_flagged : ∀ (l : List Nat) (b : Board) (dx v u : Nat),
    ((place_mines b dx l) v u).flagged = (b v u).flagged := by
  intro l
  induction l with
  | nil => intro b dx v u; rfl
  | cons i t ih =>
    intro b dx v u
    rw [place_mines_cons, ih]
    by_cases h : v = i / dx ∧ u = i % dx <;> simp [modifyCell, h]

lemma place_mines_adjacent : ∀ (l : List Nat) (b : Board) (dx v u : Nat),
    ((place_mines b dx l) v u).adjacent = (b v u).adjacent := by
  intro l
  induction l with
  | nil => intro b dx v u; rfl
  | cons i t ih =>
    intro b dx v u
    rw [place_mines_cons, ih]
    by_cases h : v = i / dx ∧ u = i % dx <;> simp [modifyCell, h]

lemma flat_div_mod {dx v u : Nat} (hu : u < dx) :
    (v * dx + u) / dx = v ∧ (v * dx + u) % dx = u := by
  constructor
  · rw [mul_comm, Nat.mul_add_div (by omega)]
    simp [Nat.div_eq_of_lt hu]
  · rw [mul_comm, Nat.mul_add_mod]
    exact Nat.mod_eq_of_lt hu

lemma place_mines_mine : ∀ (l : List Nat) (b : Board) (dx v u : Nat), u < dx →
    (((place_mines b dx l) v u).mine = true ↔ (b v u).mine = true ∨ v * dx + u ∈ l) := by
  intro l
  induction l with
  | nil =>
    intro b dx v u _
    simp [place_mines]
  | cons i t ih =>
    intro b dx v u hu
    rw [place_mines_cons, ih _ _ _ _ hu]
    by_cases h : v = i / dx ∧ u = i % dx
    · obtain ⟨h1, h2⟩ := h
      have hi : v * dx + u = i := by
        rw [h1, h2, mul_comm]
        exact Nat.div_add_mod i dx
      have hmine : ((modifyCell b (i % dx) (i / dx)
          fun f => { f with mine := true }) v u).mine = true := by
        simp [modifyCell, h1, h2]
      simp [hmine, hi]
    · have hne : v * dx + u ≠ i := by
        intro hcontra
        obtain ⟨hd, hm⟩ := flat_div_mod (v := v) hu
        exact h ⟨by rw [← hcontra, hd], by rw [← hcontra, hm]⟩
      have hmine : ((modifyCell b (i % dx) (i / dx)
          fun f => { f with mine := true }) v u).mine = (b v u).mine := by
        simp [modifyCell, h]
      rw [hmine]
      simp only [List.mem_cons]
      tauto

lemma list_range_sum (n : Nat) (f : Nat → Nat) :
    ((List.range n).map f).sum = ∑ i ∈ Finset.range n, f i := by
  induction n with
  | zero => simp
  | succ n ih =>
    rw [List.range_succ, List.map_append, List.sum_append, Finset.sum_range_succ, ih]
    simp

lemma sum_range_add (f : Nat → Nat) (a b : Nat) :
    ∑ i ∈ Finset.range (a + b), f i
      = (∑ i ∈ Finset.range a, f i) + ∑ j ∈ Finset.range b, f (a + j) := by
  induction b with
  | zero => simp
  | succ b ih =>
    rw [show a + (b + 1) = (a + b) + 1 from rfl, Finset.sum_range_succ, ih,
      Finset.sum_range_succ]
    omega

lemma sum_grid_flatten (dy dx : Nat) (f : Nat → Nat) :
    ∑ v ∈ Finset.range dy, ∑ u ∈ Finset.range dx, f (v * dx + u)
      = ∑ i ∈ Finset.range (dy * dx), f i := by
  induction dy with
  | zero => simp
  | succ dy ih =>
    rw [Finset.sum_range_succ, ih, show (dy + 1) * dx = dy * dx + dx from by ring,
      sum_range_add]

lemma countB_update_pres {dx dy : Nat} {b : Board} {x y : Nat} {h : Field → Field}
    {p : Field → Bool} (hx : x < dx) (hy : y < dy)
    (hp : p (h (b y x)) = p (b y x)) :
    countB dx dy (modifyCell b x y h) p = countB dx dy b p := by
  have := countB_update dx dy b x y h p hx hy
  rw [hp] at this
  omega

lemma countB_update_up {dx dy : Nat} {b : Board} {x y : Nat} {h : Field → Field}
    {p : Field → Bool} (hx : x < dx) (hy : y < dy)
    (hold : p (b y x) = false) (hnew : p (h (b y x)) = true) :
    countB dx dy (modifyCell b x y h) p = countB dx dy b p + 1 := by
  have := countB_update dx dy b x y h p hx hy
  rw [hold, hnew] at this
  simp at this
  omega

lemma countB_update_down {dx dy : Nat} {b : Board} {x y : Nat} {h : Field → Field}
    {p : Field → Bool} (hx : x < dx) (hy : y < dy)
    (hold : p (b y x) = true) (hnew : p (h (b y x)) = false) :
    countB dx dy (modifyCell b x y h) p + 1 = countB dx dy b p := by
  have := countB_update dx dy b x y h p hx hy
  rw [hold, hnew] at this
  simp at this
  omega

lemma revealCell_dx (g : Minesweeper) (x y : Nat) : (revealCell g x y).dx = g.dx := rfl

lemma revealCell_dy (g : Minesweeper) (x y : Nat) : (revealCell g x y).dy = g.dy := rfl

lemma goC_dx (n : Nat) (c : Prop) [Decidable c] (g : Minesweeper) (x y : Nat) :
    (goC n c g x y).dx = g.dx := (goC_floodInv n c g x y).2.1

lemma goC_dy (n : Nat) (c : Prop) [Decidable c] (g : Minesweeper) (x y : Nat) :
    (goC n c g x y).dy = g.dy := (goC_floodInv n c g x y).2.2.1

lemma check_win_fields (g : Minesweeper) :
    (check_win g).dx = g.dx ∧ (check_win g).dy = g.dy ∧
    (check_win g).mine_count = g.mine_count ∧
    (check_win g).revealed_count = g.revealed_count ∧
    (check_win g).flagged_count = g.flagged_count ∧
    (check_win g).flagged_mines_count = g.flagged_mines_count ∧
    (check_win g).board = g.board := by
  unfold check_win
  by_cases h1 : g.dx * g.dy = g.revealed_count + g.mine_count <;>
    by_cases h2 : g.flagged_mines_count = g.mine_count <;>
      simp [h1, h2]

lemma check_win_status_win {g : Minesweeper}
    (h : g.flagged_mines_count = g.mine_count) :
    (check_win g).status = GameStatus.Win := by
  unfold check_win
  by_cases h1 : g.dx * g.dy = g.revealed_count + g.mine_count <;> simp [h1, h]

lemma countInv_revealCell {g : Minesweeper} {x y : Nat} (hx : x < g.dx)
    (hy : y < g.dy) (hrev : (g.board y x).revealed = false) (hc : CountInv g) :
    CountInv (revealCell g x y) := by
  obtain ⟨h1, h2, h3⟩ := hc
  refine ⟨?_, ?_, ?_⟩
  · show g.revealed_count + 1
      = countB g.dx g.dy (modifyCell g.board x y fun f => { f with revealed := true }) (·.revealed)
    rw [countB_update_up hx hy (by simp [hrev]) (by simp)]
    rw [h1]
    rfl
  · show g.flagged_count
      = countB g.dx g.dy (modifyCell g.board x y fun f => { f with revealed := true }) (·.flagged)
    rw [countB_update_pres hx hy (by simp)]
    exact h2
  · show g.flagged_mines_count
      = countB g.dx g.dy (modifyCell g.board x y fun f => { f with revealed := true })
        (fun f => f.flagged && f.mine)
    rw [countB_update_pres hx hy (by simp)]
    exact h3

lemma go_countInv (n : Nat) : ∀ (g : Minesweeper) (x y : Nat), x < g.dx → y < g.dy →
    CountInv g → CountInv (reveal_zeros_go n g x y) := by
  induction n with
  | zero => exact fun g x y _ _ h => h
  | succ n ih =>
    intro g x y hx hy hc
    rw [reveal_zeros_go_succ]
    by_cases h1 : ((g.board y x).revealed || (g.board y x).flagged) = true
    · rw [if_pos h1]
      exact hc
    · rw [if_neg h1]
      simp only [Bool.or_eq_true, not_or, Bool.not_eq_true] at h1
      have hbase : CountInv (revealCell g x y) := countInv_revealCell hx hy h1.1 hc
      by_cases h2 : (g.board y x).adjacent ≠ 0
      · rw [if_pos h2]
        exact hbase
      · rw [if_neg h2]
        have step : ∀ (c : Prop) [Decidable c] (g' : Minesweeper) (x' y' : Nat),
            (c → x' < g'.dx) → (c → y' < g'.dy) → CountInv g' →
            CountInv (goC n c g' x' y') := by
          intro c inst g' x' y' hx' hy' hc'
          unfold goC
          split
          · next hcc => exact ih g' x' y' (hx' hcc) (hy' hcc) hc'
          · exact hc'
        exact step _ _ _ _
          (fun hcc => by simp only [goC_dx, revealCell_dx]; omega)
          (fun hcc => by simp only [goC_dy, revealCell_dy]; omega)
          (step _ _ _ _
            (fun hcc => by simp only [goC_dx, revealCell_dx]; omega)
            (fun hcc => by simp only [goC_dy, revealCell_dy]; omega)
            (step _ _ _ _
              (fun hcc => by simp only [goC_dx, revealCell_dx]; omega)
              (fun hcc => by simp only [goC_dy, revealCell_dy]; omega)
              (step _ _ _ _
                (fun hcc => by simp only [goC_dx, revealCell_dx]; omega)
                (fun hcc => by simp only [goC_dy, revealCell_dy]; omega)
                (step _ _ _ _
                  (fun hcc => by simp only [goC_dx, revealCell_dx]; omega)
                  (fun hcc => by simp only [goC_dy, revealCell_dy]; omega)
                  (step _ _ _ _
                    (fun hcc => by simp only [goC_dx, revealCell_dx]; omega)
                    (fun hcc => by simp only [goC_dy, revealCell_dy]; omega)
                    (step _ _ _ _
                      (fun hcc => by simp only [goC_dx, revealCell_dx]; omega)
                      (fun hcc => by simp only [goC_dy, revealCell_dy]; omega)
                      (step _ _ _ _
                        (fun hcc => by simp only [goC_dx, revealCell_dx]; omega)
                        (fun hcc => by simp only [goC_dy, revealCell_dy]; omega)
                        hbase)))))))

lemma countB_eq_zero {dx dy : Nat} {b : Board} {p : Field → Bool}
    (h : ∀ v u, v < dy → u < dx → p (b v u) = false) : countB dx dy b p = 0 := by
  unfold countB
  refine Finset.sum_eq_zero fun v hv => Finset.sum_eq_zero fun u hu => ?_
  rw [h v u (Finset.mem_range.mp hv) (Finset.mem_range.mp hu)]
  rfl

lemma foldl_board_pres {β : Type} {pr : Field → Bool} (step : Board → β → Board)
    (hstep : ∀ (b : Board) (a : β) (v u : Nat), pr ((step b a) v u) = pr (b v u)) :
    ∀ (l : List β) (b : Board) (v u : Nat), pr ((l.foldl step b) v u) = pr (b v u) := by
  intro l
  induction l with
  | nil => intro b v u; rfl
  | cons a t ih =>
    intro b v u
    rw [List.foldl_cons, ih]
    exact hstep b a v u

lemma calc_adjacents_mine (dx dy : Nat) (b : Board) (v u : Nat) :
    ((calc_adjacents dx dy b) v u).mine = (b v u).mine := by
  unfold calc_adjacents
  refine foldl_board_pres _ ?_ _ _ _ _
  intro b' a v' u'
  refine foldl_board_pres _ ?_ _ _ _ _
  intro b'' a' v'' u''
  split
  · exact inc_neighbors_mine dx dy b'' a' a v'' u''
  · rfl

lemma calc_adjacents_revealed (dx dy : Nat) (b : Board) (v u : Nat) :
    ((calc_adjacents dx dy b) v u).revealed = (b v u).revealed := by
  unfold calc_adjacents
  refine foldl_board_pres _ ?_ _ _ _ _
  intro b' a v' u'
  refine foldl_board_pres _ ?_ _ _ _ _
  intro b'' a' v'' u''
  split
  · exact inc_neighbors_revealed dx dy b'' a' a v'' u''
  · rfl

lemma calc_adjacents_flagged (dx dy : Nat) (b : Board) (v u : Nat) :
    ((calc_adjacents dx dy b) v u).flagged = (b v u).flagged := by
  unfold calc_adjacents
  refine foldl_board_pres _ ?_ _ _ _ _
  intro b' a v' u'
  refine foldl_board_pres _ ?_ _ _ _ _
  intro b'' a' v'' u''
  split
  · exact inc_neighbors_flagged dx dy b'' a' a v'' u''
  · rfl

lemma restart_board_fresh (g : Minesweeper) (mines : List Nat) (v u : Nat) :
    ((restart g mines).board v u).revealed = false ∧
    ((restart g mines).board v u).flagged = false := by
  constructor
  · show ((calc_adjacents g.dx g.dy (place_mines (fun _ _ => Field.default) g.dx mines)) v u).revealed = false
    rw [calc_adjacents_revealed, place_mines_revealed]
    rfl
  · show ((calc_adjacents g.dx g.dy (place_mines (fun _ _ => Field.default) g.dx mines)) v u).flagged = false
    rw [calc_adjacents_flagged, place_mines_flagged]
    rfl

lemma restart_countInv (g : Minesweeper) (mines : List Nat) :
    CountInv (restart g mines) := by
  refine ⟨?_, ?_, ?_⟩
  · show 0 = recountRevealed (restart g mines)
    rw [recountRevealed, countB_eq_zero fun v u _ _ => (restart_board_fresh g mines v u).1]
  · show 0 = recountFlagged (restart g mines)
    rw [recountFlagged, countB_eq_zero fun v u _ _ => (restart_board_fresh g mines v u).2]
  · show 0 = recountFlaggedMines (restart g mines)
    rw [recountFlaggedMines,
      countB_eq_zero fun v u _ _ => by
        rw [show ((restart g mines).board v u).flagged = false from
          (restart_board_fresh g mines v u).2]
        rfl]

lemma countInv_check_win {g : Minesweeper} (hc : CountInv g) :
    CountInv (check_win g) := by
  obtain ⟨hdx, hdy, hmc, hrc, hfc, hfmc, hb⟩ := check_win_fields g
  unfold CountInv recountRevealed recountFlagged recountFlaggedMines at *
  rw [hdx, hdy, hrc, hfc, hfmc, hb]
  exact hc

lemma countInv_flag_set {g : Minesweeper} {x y : Nat} (hx : x < g.dx) (hy : y < g.dy)
    (hfl : (g.board y x).flagged = false) (hc : CountInv g) :
    CountInv
      { g with
        board := modifyCell g.board x y (fun f => { f with flagged := true })
        flagged_count := g.flagged_count + 1
        flagged_mines_count :=
          if (g.board y x).mine then g.flagged_mines_count + 1 else g.flagged_mines_count } := by
  obtain ⟨h1, h2, h3⟩ := hc
  simp only [recountRevealed, recountFlagged, recountFlaggedMines] at h1 h2 h3
  refine ⟨?_, ?_, ?_⟩
  · show g.revealed_count
      = countB g.dx g.dy (modifyCell g.board x y fun f => { f with flagged := true }) (·.revealed)
    rw [countB_update_pres hx hy (by simp)]
    exact h1
  · show g.flagged_count + 1
      = countB g.dx g.dy (modifyCell g.board x y fun f => { f with flagged := true }) (·.flagged)
    rw [countB_update_up hx hy (by simp [hfl]) (by simp)]
    omega
  · show (if (g.board y x).mine then g.flagged_mines_count + 1 else g.flagged_mines_count)
      = countB g.dx g.dy (modifyCell g.board x y fun f => { f with flagged := true })
        (fun f => f.flagged && f.mine)
    by_cases hm : (g.board y x).mine = true
    · rw [if_pos hm, countB_update_up hx hy (by simp [hfl]) (by simp [hm])]
      omega
    · rw [if_neg hm, countB_update_pres hx hy
        (by simp [Bool.eq_false_iff.mpr hm, hfl])]
      exact h3

lemma countInv_flag_clear {g : Minesweeper} {x y : Nat} (hx : x < g.dx) (hy : y < g.dy)
    (hfl : (g.board y x).flagged = true) (hc : CountInv g) :
    CountInv
      { g with
        board := modifyCell g.board x y (fun f => { f with flagged := false })
        flagged_count := g.flagged_count - 1
        flagged_mines_count :=
          if (g.board y x).mine then g.flagged_mines_count - 1 else g.flagged_mines_count } := by
  obtain ⟨h1, h2, h3⟩ := hc
  simp only [recountRevealed, recountFlagged, recountFlaggedMines] at h1 h2 h3
  refine ⟨?_, ?_, ?_⟩
  · show g.revealed_count
      = countB g.dx g.dy (modifyCell g.board x y fun f => { f with flagged := false }) (·.revealed)
    rw [countB_update_pres hx hy (by simp)]
    exact h1
  · show g.flagged_count - 1
      = countB g.dx g.dy (modifyCell g.board x y fun f => { f with flagged := false }) (·.flagged)
    have := countB_update_down (b := g.board) (p := (·.flagged))
      (h := fun f => { f with flagged := false }) hx hy (by simp [hfl]) (by simp)
    omega
  · show (if (g.board y x).mine then g.flagged_mines_count - 1 else g.flagged_mines_count)
      = countB g.dx g.dy (modifyCell g.board x y fun f => { f with flagged := false })
        (fun f => f.flagged && f.mine)
    by_cases hm : (g.board y x).mine = true
    · rw [if_pos hm]
      have := countB_update_down (b := g.board) (p := fun f => f.flagged && f.mine)
        (h := fun f => { f with flagged := false }) hx hy (by simp [hfl, hm]) (by simp)
      omega
    · rw [if_neg hm, countB_update_pres hx hy
        (by simp [Bool.eq_false_iff.mpr hm, hfl])]
      exact h3

lemma reveal_countInv {g g' : Minesweeper} {x y : Nat} (h : reveal g x y = some g')
    (hc : CountInv g) : CountInv g' := by
  unfold reveal at h
  by_cases hs : g.status ≠ GameStatus.Running
  · rw [if_pos hs] at h
    have := Option.some.inj h
    subst this
    exact hc
  · rw [if_neg hs] at h
    by_cases hb : y < g.dy ∧ x < g.dx
    · rw [if_pos hb] at h
      by_cases hrf : ((g.board y x).revealed || (g.board y x).flagged) = true
      · rw [if_pos hrf] at h
        have := Option.some.inj h
        subst this
        exact hc
      · rw [if_neg hrf] at h
        simp only [Bool.or_eq_true, not_or, Bool.not_eq_true] at hrf
        by_cases hm : (g.board y x).mine = true
        · rw [if_pos hm] at h
          have := Option.some.inj h
          subst this
          exact countInv_check_win (countInv_revealCell hb.2 hb.1 hrf.1 hc)
        · rw [if_neg hm] at h
          by_cases ha : (g.board y x).adjacent = 0
          · rw [if_pos ha] at h
            have := Option.some.inj h
            subst this
            exact countInv_check_win
              (go_countInv (g.dx * g.dy + 1) g x y hb.2 hb.1 hc)
          · rw [if_neg ha] at h
            have := Option.some.inj h
            subst this
            exact countInv_check_win (countInv_revealCell hb.2 hb.1 hrf.1 hc)
    · rw [if_neg hb] at h
      exact Option.noConfusion h

lemma flag_countInv {g g' : Minesweeper} {x y : Nat} (h : flag g x y = some g')
    (hc : CountInv g) : CountInv g' := by
  unfold flag at h
  by_cases hs : g.status ≠ GameStatus.Running
  · rw [if_pos hs] at h
    have := Option.some.inj h
    subst this
    exact hc
  · rw [if_neg hs] at h
    by_cases hb : y < g.dy ∧ x < g.dx
    · rw [if_pos hb] at h
      by_cases hrev : (g.board y x).revealed = true
      · rw [if_pos hrev] at h
        have := Option.some.inj h
        subst this
        exact hc
      · rw [if_neg hrev] at h
        by_cases hfl : (g.board y x).flagged = true
        · rw [if_pos hfl] at h
          have := Option.some.inj h
          subst this
          exact countInv_check_win (countInv_flag_clear hb.2 hb.1 hfl hc)
        · rw [if_neg hfl] at h
          have := Option.some.inj h
          subst this
          exact countInv_check_win
            (countInv_flag_set hb.2 hb.1 (Bool.eq_false_iff.mpr hfl) hc)
    · rw [if_neg hb] at h
      exact Option.noConfusion h

lemma reached_countInv {g : Minesweeper} (h : Reached g) : CountInv g := by
  induction h with
  | start set mines => exact restart_countInv _ mines
  | restart_step mines _ _ => exact restart_countInv _ mines
  | reveal_step x y _ hstep ih => exact reveal_countInv hstep ih
  | flag_step x y _ hstep ih => exact flag_countInv hstep ih

lemma moore_comm {x y u v : Nat} : moore x y u v ↔ moore u v x y := by
  unfold moore
  omega

lemma row_fold_mine (dx dy a : Nat) :
    ∀ (l : List Nat) (b : Board) (v u : Nat),
    (((l.foldl (fun b x => if (b a x).mine then inc_neighbors dx dy b x a else b) b)) v u).mine
      = (b v u).mine :=
  foldl_board_pres _ (fun b x v u => by
    split
    · exact inc_neighbors_mine dx dy b x a v u
    · rfl)

lemma row_fold_adjacent (dx dy a : Nat) (ha : a < dy) :
    ∀ (l : List Nat) (b : Board), (∀ x ∈ l, x < dx) → ∀ {u v : Nat}, u < dx → v < dy →
    (((l.foldl (fun b x => if (b a x).mine then inc_neighbors dx dy b x a else b) b)) v u).adjacent
      = (b v u).adjacent
        + ((l.map fun x => if (b a x).mine = true ∧ moore x a u v then 1 else 0).sum) := by
  intro l
  induction l with
  | nil =>
    intro b _ u v _ _
    simp
  | cons x t ih =>
    intro b hl u v hu hv
    rw [List.foldl_cons]
    have hx : x < dx := hl x (List.mem_cons_self x t)
    by_cases hm : (b a x).mine = true
    · rw [if_pos hm, ih (inc_neighbors dx dy b x a) (fun z hz => hl z (List.mem_cons_of_mem x hz)) hu hv]
      have hmine : ∀ z, ((inc_neighbors dx dy b x a) a z).mine = (b a z).mine :=
        fun z => inc_neighbors_mine dx dy b x a a z
      have hsum : ((t.map fun z =>
          if ((inc_neighbors dx dy b x a) a z).mine = true ∧ moore z a u v then 1 else 0).sum)
          = ((t.map fun z => if (b a z).mine = true ∧ moore z a u v then 1 else 0).sum) := by
        congr 1
        exact List.map_congr_left fun z _ => by rw [hmine z]
      rw [hsum, inc_neighbors_adjacent dx dy b hu hv]
      simp only [List.map_cons, List.sum_cons, hm, true_and]
      omega
    · rw [if_neg hm, ih b (fun z hz => hl z (List.mem_cons_of_mem x hz)) hu hv]
      simp only [List.map_cons, List.sum_cons]
      rw [if_neg (fun hc => hm hc.1)]
      omega

lemma grid_fold_adjacent (dx dy : Nat) :
    ∀ (L : List Nat) (b : Board), (∀ a ∈ L, a < dy) → ∀ {u v : Nat}, u < dx → v < dy →
    ((L.foldl (fun b y =>
        (List.range dx).foldl (fun b x => if (b y x).mine then inc_neighbors dx dy b x y else b) b) b) v u).adjacent
      = (b v u).adjacent
        + (L.map fun a => ((List.range dx).map fun x =>
            if (b a x).mine = true ∧ moore x a u v then 1 else 0).sum).sum := by
  intro L
  induction L with
  | nil =>
    intro b _ u v _ _
    simp
  | cons a T ih =>
    intro b hL u v hu hv
    rw [List.foldl_cons]
    have ha : a < dy := hL a (List.mem_cons_self a T)
    set b1 := (List.range dx).foldl
      (fun b x => if (b a x).mine then inc_neighbors dx dy b x a else b) b with hb1
    rw [ih b1 (fun z hz => hL z (List.mem_cons_of_mem a hz)) hu hv]
    have hmine : ∀ w z, (b1 w z).mine = (b w z).mine := by
      intro w z
      rw [hb1]
      exact row_fold_mine dx dy a (List.range dx) b w z
    have hsum : ((T.map fun c => ((List.range dx).map fun x =>
        if (b1 c x).mine = true ∧ moore x c u v then 1 else 0).sum).sum)
        = ((T.map fun c => ((List.range dx).map fun x =>
            if (b c x).mine = true ∧ moore x c u v then 1 else 0).sum).sum) := by
      congr 1
      refine List.map_congr_left fun c _ => ?_
      congr 1
      exact List.map_congr_left fun z _ => by rw [hmine c z]
    rw [hsum, hb1, row_fold_adjacent dx dy a ha (List.range dx) b
      (fun z hz => List.mem_range.mp hz) hu hv]
    simp only [List.map_cons, List.sum_cons]
    omega

lemma calc_adjacents_adjacent (dx dy : Nat) (b : Board) {u v : Nat}
    (hu : u < dx) (hv : v < dy) :
    ((calc_adjacents dx dy b) v u).adjacent
      = (b v u).adjacent
        + ∑ a ∈ Finset.range dy, ∑ x ∈ Finset.range dx,
            if (b a x).mine = true ∧ moore x a u v then 1 else 0 := by
  unfold calc_adjacents
  rw [grid_fold_adjacent dx dy (List.range dy) b (fun z hz => List.mem_range.mp hz) hu hv]
  congr 1

lemma restart_mine_iff (g : Minesweeper) (mines : List Nat) {v u : Nat} (hu : u < g.dx) :
    (((restart g mines).board v u).mine = true ↔ v * g.dx + u ∈ mines) := by
  show ((calc_adjacents g.dx g.dy
    (place_mines (fun _ _ => Field.default) g.dx mines)) v u).mine = true ↔ _
  rw [calc_adjacents_mine, place_mines_mine mines _ g.dx v u hu]
  simp [Field.default]

lemma sum_indicator_mem (N : Nat) (l : List Nat) (hl : ∀ i ∈ l, i < N)
    (hnd : l.Nodup) :
    (∑ i ∈ Finset.range N, if i ∈ l then 1 else 0) = l.length := by
  have hfil : (Finset.range N).filter (· ∈ l) = l.toFinset := by
    ext i
    simp only [Finset.mem_filter, List.mem_toFinset, Finset.mem_range]
    exact ⟨fun h => h.2, fun h => ⟨hl i h, h⟩⟩
  rw [← Finset.card_filter, hfil, List.toFinset_card_of_nodup hnd]

lemma restart_countMines (g : Minesweeper) (mines : List Nat)
    (hnd : mines.Nodup) (hbnd : ∀ i ∈ mines, i < g.dx * g.dy) :
    countMines (restart g mines) = mines.length := by
  unfold countMines
  have h1 : countB (restart g mines).dx (restart g mines).dy (restart g mines).board (·.mine)
      = ∑ v ∈ Finset.range g.dy, ∑ u ∈ Finset.range g.dx,
          if v * g.dx + u ∈ mines then 1 else 0 := by
    unfold countB
    refine Finset.sum_congr rfl fun v hv => Finset.sum_congr rfl fun u hu => ?_
    exact if_congr (restart_mine_iff g mines (Finset.mem_range.mp hu)) rfl rfl
  rw [h1, sum_grid_flatten g.dy g.dx fun i => if i ∈ mines then 1 else 0]
  exact sum_indicator_mem _ mines (fun i hi => by
    have h2 := hbnd i hi
    have hcomm : g.dx * g.dy = g.dy * g.dx := Nat.mul_comm _ _
    omega) hnd

/-- C7: after a `restart` on valid settings (`width ≥ 1`, `height ≥ 1`,
`mine_count < width*height`) and a sample with the properties `choose_multiple`
guarantees, the board holds exactly `mine_count` mines, every cell is
unrevealed and unflagged, all three counters are `0`, and the status is
`Running`. -/
theorem restart_fresh_correct (g : Minesweeper) (mines : List Nat)
    (hw : 1 ≤ g.dx) (hh : 1 ≤ g.dy) (hmc : g.mine_count < g.dx * g.dy)
    (hnd : mines.Nodup) (hbnd : ∀ i ∈ mines, i < g.dx * g.dy)
    (hlen : mines.length = min g.mine_count (g.dx * g.dy)) :
    countMines (restart g mines) = g.mine_count ∧
    (∀ v u, v < (restart g mines).dy → u < (restart g mines).dx →
      ((restart g mines).board v u).revealed = false ∧
      ((restart g mines).board v u).flagged = false) ∧
    (restart g mines).revealed_count = 0 ∧
    (restart g mines).flagged_count = 0 ∧
    (restart g mines).flagged_mines_count = 0 ∧
    (restart g mines).status = GameStatus.Running := by
  refine ⟨?_, fun v u _ _ => restart_board_fresh g mines v u, rfl, rfl, rfl, rfl⟩
  rw [restart_countMines g mines hnd hbnd, hlen]
  omega

theorem restart_fresh_correct_witness :
    countMines (restart gEx2 [0]) = gEx2.mine_count ∧
    (∀ v u, v < (restart gEx2 [0]).dy → u < (restart gEx2 [0]).dx →
      ((restart gEx2 [0]).board v u).revealed = false ∧
      ((restart gEx2 [0]).board v u).flagged = false) ∧
    (restart gEx2 [0]).revealed_count = 0 ∧
    (restart gEx2 [0]).flagged_count = 0 ∧
    (restart gEx2 [0]).flagged_mines_count = 0 ∧
    (restart gEx2 [0]).status = GameStatus.Running :=
  restart_fresh_correct gEx2 [0] (by decide) (by decide) (by decide) (by decide)
    (by decide) (by decide)

/-- C8: after `restart`, every in-bounds cell's `adjacent_mines` equals the
number of mine cells among its in-bounds Moore neighbours (no wraparound). -/
theorem restart_adjacency (g : Minesweeper) (mines : List Nat) {u v : Nat}
    (hu : u < (restart g mines).dx) (hv : v < (restart g mines).dy) :
    ((restart g mines).board v u).adjacent = mine_neighbors (restart g mines) u v := by
  have hu' : u < g.dx := hu
  have hv' : v < g.dy := hv
  show ((calc_adjacents g.dx g.dy
    (place_mines (fun _ _ => Field.default) g.dx mines)) v u).adjacent = _
  rw [calc_adjacents_adjacent g.dx g.dy _ hu' hv', place_mines_adjacent]
  show 0 + _ = _
  rw [Nat.zero_add]
  unfold mine_neighbors
  refine Finset.sum_congr rfl fun a _ => Finset.sum_congr rfl fun x _ => ?_
  refine if_congr ?_ rfl rfl
  refine and_congr ?_ moore_comm
  constructor
  · intro h
    show ((restart g mines).board a x).mine = true
    have : ((restart g mines).board a x).mine
        = ((place_mines (fun _ _ => Field.default) g.dx mines) a x).mine :=
      calc_adjacents_mine g.dx g.dy _ a x
    rw [this]
    exact h
  · intro h
    have : ((restart g mines).board a x).mine
        = ((place_mines (fun _ _ => Field.default) g.dx mines) a x).mine :=
      calc_adjacents_mine g.dx g.dy _ a x
    rw [← this]
    exact h

theorem restart_adjacency_witness :
    ((restart gEx2 [0]).board 1 1).adjacent = mine_neighbors (restart gEx2 [0]) 1 1 :=
  restart_adjacency gEx2 [0] (by decide) (by decide)

/-- C10: when `mine_count ≥ width*height`, the sample is clamped to the whole
cell space (`choose_multiple` returns the entire population instead of
panicking), so `restart` succeeds, marks every cell as a mine, resets all
counters to `0` and leaves the game `Running`. -/
theorem restart_clamped (g : Minesweeper) (mines : List Nat)
    (hover : g.dx * g.dy ≤ g.mine_count)
    (hnd : mines.Nodup) (hbnd : ∀ i ∈ mines, i < g.dx * g.dy)
    (hlen : mines.length = min g.mine_count (g.dx * g.dy)) :
    (∀ v u, v < (restart g mines).dy → u < (restart g mines).dx →
      ((restart g mines).board v u).mine = true) ∧
    (restart g mines).revealed_count = 0 ∧
    (restart g mines).flagged_count = 0 ∧
    (restart g mines).flagged_mines_count = 0 ∧
    (restart g mines).status = GameStatus.Running := by
  have hlen' : mines.length = g.dx * g.dy := by
    rw [hlen]
    omega
  have hfin : mines.toFinset = Finset.range (g.dx * g.dy) := by
    apply Finset.eq_of_subset_of_card_le
    · intro i him
      exact Finset.mem_range.mpr (hbnd i (List.mem_toFinset.mp him))
    · rw [List.toFinset_card_of_nodup hnd, hlen', Finset.card_range]
  refine ⟨fun v u hv hu => ?_, rfl, rfl, rfl, rfl⟩
  have hu' : u < g.dx := hu
  have hv' : v < g.dy := hv
  have hlt : v * g.dx + u < g.dx * g.dy := by
    have h1 : (v + 1) * g.dx ≤ g.dy * g.dx := Nat.mul_le_mul_right _ (by omega)
    have h2 : v * g.dx + g.dx = (v + 1) * g.dx := by ring
    have h3 : g.dy * g.dx = g.dx * g.dy := Nat.mul_comm _ _
    omega
  refine (restart_mine_iff g mines hu').mpr ?_
  rw [← List.mem_toFinset, hfin]
  exact Finset.mem_range.mpr hlt

theorem restart_clamped_witness :
    (∀ v u, v < (restart gExClamp [0, 1]).dy → u < (restart gExClamp [0, 1]).dx →
      ((restart gExClamp [0, 1]).board v u).mine = true) ∧
    (restart gExClamp [0, 1]).revealed_count = 0 ∧
    (restart gExClamp [0, 1]).flagged_count = 0 ∧
    (restart gExClamp [0, 1]).flagged_mines_count = 0 ∧
    (restart gExClamp [0, 1]).status = GameStatus.Running :=
  restart_clamped gExClamp [0, 1] (by decide) (by decide) (by decide) (by decide)

/-- C9: the read accessors of an unrevealed cell report `false` for the mine
bit and `0` for the adjacency count, whatever the underlying values are. -/
theorem hidden_state (f : Field) (h : f.revealed = false) :
    f.is_mine = false ∧ f.adjacent_mines = 0 := by
  simp [Field.is_mine, Field.adjacent_mines, h]

theorem hidden_state_witness :
    Field.is_mine ⟨true, false, false, 5⟩ = false ∧
    Field.adjacent_mines ⟨true, false, false, 5⟩ = 0 :=
  hidden_state ⟨true, false, false, 5⟩ rfl

/-- C5: once the status is `Win` or `GameOver`, every `reveal` and `flag`
call, at any coordinates (even out of bounds), returns the game unchanged;
only `restart` resets the status. -/
theorem terminal_noop (g : Minesweeper) (x y : Nat)
    (h : g.status = GameStatus.Win ∨ g.status = GameStatus.GameOver) :
    reveal g x y = some g ∧ flag g x y = some g := by
  have hs : g.status ≠ GameStatus.Running := by
    rcases h with h | h <;> rw [h] <;> intro hc <;> exact GameStatus.noConfusion hc
  constructor
  · unfold reveal
    rw [if_pos hs]
  · unfold flag
    rw [if_pos hs]

theorem terminal_noop_witness :
    reveal gExWin 5 7 = some gExWin ∧ flag gExWin 5 7 = some gExWin :=
  terminal_noop gExWin 5 7 (Or.inl rfl)

/-- C1 (refuting evaluation): on the 2 by 2 board with its single mine at
`(0, 0)`, revealing the two safe cells `(1, 0)` and `(0, 1)` and then
revealing the mine ends the game with status `Win`, not `GameOver`: the
clearance check in `check_win` runs after the mine reveal and counts the
revealed mine, overriding the `GameOver` status. -/
theorem loss_trace_wins : lossTraceStatus = some GameStatus.Win := by decide

/-- C2 (counterexample): on a `Running` game the out-of-bounds index is
reached and the indexing panics (`none`); the call is not a no-op returning
the game unchanged. -/
theorem oob_cex : reveal gEx2 2 0 = none ∧ flag gEx2 0 2 = none :=
  ⟨rfl, rfl⟩

/-- C2 amended: with out-of-bounds coordinates, `reveal` and `flag` return
the game unchanged only when the status is not `Running` (the status guard
returns before indexing); in a `Running` game they reach the board index and
panic instead of being no-ops. -/
theorem oob_behavior (g : Minesweeper) (x y : Nat) (hoob : x ≥ g.dx ∨ y ≥ g.dy) :
    (g.status = GameStatus.Running → reveal g x y = none ∧ flag g x y = none) ∧
    (g.status ≠ GameStatus.Running → reveal g x y = some g ∧ flag g x y = some g) := by
  have hb : ¬(y < g.dy ∧ x < g.dx) := by omega
  constructor
  · intro hs
    have hs' : ¬g.status ≠ GameStatus.Running := fun hc => hc hs
    constructor
    · unfold reveal
      rw [if_neg hs', if_neg hb]
    · unfold flag
      rw [if_neg hs', if_neg hb]
  · intro hs
    constructor
    · unfold reveal
      rw [if_pos hs]
    · unfold flag
      rw [if_pos hs]

theorem oob_behavior_witness :
    2 ≥ gEx2.dx ∧ (reveal gEx2 2 0 = none ∧ flag gEx2 2 0 = none) :=
  ⟨by decide, (oob_behavior gEx2 2 0 (Or.inl (by decide))).1 rfl⟩

/-- C6: in every reachable game state, the three cached counters agree with a
direct recount over the board: `revealed_count` counts the revealed cells,
`flagged_count` the flagged cells, and `flagged_mines_count` the cells both
flagged and mined. -/
theorem counters_consistent (g : Minesweeper) (h : Reached g) :
    g.revealed_count = recountRevealed g ∧
    g.flagged_count = recountFlagged g ∧
    g.flagged_mines_count = recountFlaggedMines g :=
  reached_countInv h

theorem counters_consistent_witness :
    gEx21f.revealed_count = recountRevealed gEx21f ∧
    gEx21f.flagged_count = recountFlagged gEx21f ∧
    gEx21f.flagged_mines_count = recountFlaggedMines gEx21f :=
  counters_consistent gEx21f
    (Reached.flag_step 0 0 (Reached.start ⟨2, 1, 1⟩ [0]) rfl)

lemma modifyCell_field_mine (b : Board) (x y : Nat) (hf : Field → Field)
    (hm : ∀ f, (hf f).mine = f.mine) (v u : Nat) :
    ((modifyCell b x y hf) v u).mine = (b v u).mine := by
  by_cases hc : v = y ∧ u = x
  · simp only [modifyCell, if_pos hc]
    exact hm _
  · simp only [modifyCell, if_neg hc]

lemma reveal_pres {g g' : Minesweeper} {x y : Nat} (h : reveal g x y = some g') :
    g'.dx = g.dx ∧ g'.dy = g.dy ∧ g'.mine_count = g.mine_count ∧
    g'.flagged_mines_count = g.flagged_mines_count ∧
    (∀ v u, (g'.board v u).mine = (g.board v u).mine) := by
  unfold reveal at h
  by_cases hs : g.status ≠ GameStatus.Running
  · rw [if_pos hs] at h
    have := Option.some.inj h
    subst this
    exact ⟨rfl, rfl, rfl, rfl, fun v u => rfl⟩
  · rw [if_neg hs] at h
    by_cases hb : y < g.dy ∧ x < g.dx
    · rw [if_pos hb] at h
      by_cases hrf : ((g.board y x).revealed || (g.board y x).flagged) = true
      · rw [if_pos hrf] at h
        have := Option.some.inj h
        subst this
        exact ⟨rfl, rfl, rfl, rfl, fun v u => rfl⟩
      · rw [if_neg hrf] at h
        by_cases hm : (g.board y x).mine = true
        · rw [if_pos hm] at h
          have := Option.some.inj h
          subst this
          obtain ⟨cdx, cdy, cmc, _, _, cfmc, cb⟩ := check_win_fields _
          refine ⟨cdx, cdy, cmc, cfmc, fun v u => ?_⟩
          rw [cb]
          exact modifyCell_field_mine g.board x y
            (fun f => { f with revealed := true }) (fun f => rfl) v u
        · rw [if_neg hm] at h
          by_cases ha : (g.board y x).adjacent = 0
          · rw [if_pos ha] at h
            have := Option.some.inj h
            subst this
            obtain ⟨cdx, cdy, cmc, _, _, cfmc, cb⟩ := check_win_fields _
            obtain ⟨_, fdx, fdy, fmc, _, ffmc, fb, _⟩ :=
              go_floodInv (g.dx * g.dy + 1) g x y
            refine ⟨cdx.trans fdx, cdy.trans fdy, cmc.trans fmc,
              cfmc.trans ffmc, fun v u => ?_⟩
            rw [cb]
            exact (fb v u).1
          · rw [if_neg ha] at h
            have := Option.some.inj h
            subst this
            obtain ⟨cdx, cdy, cmc, _, _, cfmc, cb⟩ := check_win_fields _
            refine ⟨cdx, cdy, cmc, cfmc, fun v u => ?_⟩
            rw [cb]
            exact modifyCell_field_mine g.board x y
              (fun f => { f with revealed := true }) (fun f => rfl) v u
    · rw [if_neg hb] at h
      exact Option.noConfusion h

lemma flag_pres {g g' : Minesweeper} {x y : Nat} (h : flag g x y = some g') :
    g'.dx = g.dx ∧ g'.dy = g.dy ∧ g'.mine_count = g.mine_count ∧
    (∀ v u, (g'.board v u).mine = (g.board v u).mine) := by
  unfold flag at h
  by_cases hs : g.status ≠ GameStatus.Running
  · rw [if_pos hs] at h
    have := Option.some.inj h
    subst this
    exact ⟨rfl, rfl, rfl, fun v u => rfl⟩
  · rw [if_neg hs] at h
    by_cases hb : y < g.dy ∧ x < g.dx
    · rw [if_pos hb] at h
      by_cases hrev : (g.board y x).revealed = true
      · rw [if_pos hrev] at h
        have := Option.some.inj h
        subst this
        exact ⟨rfl, rfl, rfl, fun v u => rfl⟩
      · rw [if_neg hrev] at h
        by_cases hfl : (g.board y x).flagged = true
        · rw [if_pos hfl] at h
          have := Option.some.inj h
          subst this
          obtain ⟨cdx, cdy, cmc, _, _, _, cb⟩ := check_win_fields _
          refine ⟨cdx, cdy, cmc, fun v u => ?_⟩
          rw [cb]
          exact modifyCell_field_mine g.board x y
            (fun f => { f with flagged := false }) (fun f => rfl) v u
        · rw [if_neg hfl] at h
          have := Option.some.inj h
          subst this
          obtain ⟨cdx, cdy, cmc, _, _, _, cb⟩ := check_win_fields _
          refine ⟨cdx, cdy, cmc, fun v u => ?_⟩
          rw [cb]
          exact modifyCell_field_mine g.board x y
            (fun f => { f with flagged := true }) (fun f => rfl) v u
    · rw [if_neg hb] at h
      exact Option.noConfusion h

lemma reachedFrom_reached {g0 g : Minesweeper} (hg0 : Reached g0)
    (h : ReachedFrom g0 g) : Reached g := by
  induction h with
  | base => exact hg0
  | reveal_step x y _ hstep ih => exact Reached.reveal_step x y ih hstep
  | flag_step x y _ hstep ih => exact Reached.flag_step x y ih hstep

lemma reachedFrom_facts {g0 g : Minesweeper} (h : ReachedFrom g0 g) :
    g.dx = g0.dx ∧ g.dy = g0.dy ∧ g.mine_count = g0.mine_count ∧
    (∀ v u, (g.board v u).mine = (g0.board v u).mine) := by
  induction h with
  | base => exact ⟨rfl, rfl, rfl, fun v u => rfl⟩
  | reveal_step x y _ hstep ih =>
    obtain ⟨pdx, pdy, pmc, _, pb⟩ := reveal_pres hstep
    exact ⟨pdx.trans ih.1, pdy.trans ih.2.1, pmc.trans ih.2.2.1,
      fun v u => (pb v u).trans (ih.2.2.2 v u)⟩
  | flag_step x y _ hstep ih =>
    obtain ⟨pdx, pdy, pmc, pb⟩ := flag_pres hstep
    exact ⟨pdx.trans ih.1, pdy.trans ih.2.1, pmc.trans ih.2.2.1,
      fun v u => (pb v u).trans (ih.2.2.2 v u)⟩

lemma reachedFrom_flagwin {g0 g : Minesweeper} (h : ReachedFrom g0 g)
    (hM : 1 ≤ g0.mine_count) (hfmc0 : g0.flagged_mines_count = 0) :
    g.mine_count = g0.mine_count ∧
    (g.flagged_mines_count = g.mine_count → g.status = GameStatus.Win) := by
  induction h with
  | base => exact ⟨rfl, fun hc => absurd hc (by omega)⟩
  | reveal_step x y hprev hstep ih =>
    rename_i gmid gnext
    obtain ⟨pdx, pdy, pmc, pfmc, pb⟩ := reveal_pres hstep
    refine ⟨pmc.trans ih.1, fun hc => ?_⟩
    have hmid : gmid.flagged_mines_count = gmid.mine_count := by
      rw [← pfmc, ← pmc]
      exact hc
    have hwin : gmid.status = GameStatus.Win := ih.2 hmid
    have hnr : gmid.status ≠ GameStatus.Running := by
      rw [hwin]
      intro hcc
      exact GameStatus.noConfusion hcc
    have heq : gnext = gmid := by
      have := hstep
      unfold reveal at this
      rw [if_pos hnr] at this
      exact (Option.some.inj this).symm
    rw [heq, hwin]
  | flag_step x y hprev hstep ih =>
    rename_i gmid gnext
    obtain ⟨pdx, pdy, pmc, pb⟩ := flag_pres hstep
    refine ⟨pmc.trans ih.1, fun hc => ?_⟩
    have hstep' := hstep
    unfold flag at hstep'
    by_cases hs : gmid.status ≠ GameStatus.Running
    · rw [if_pos hs] at hstep'
      have := Option.some.inj hstep'
      subst this
      exact ih.2 (by rw [← pmc]; exact hc)
    · rw [if_neg hs] at hstep'
      by_cases hb : y < gmid.dy ∧ x < gmid.dx
      · rw [if_pos hb] at hstep'
        by_cases hrev : (gmid.board y x).revealed = true
        · rw [if_pos hrev] at hstep'
          have := Option.some.inj hstep'
          subst this
          exact ih.2 (by rw [← pmc]; exact hc)
        · rw [if_neg hrev] at hstep'
          by_cases hfl : (gmid.board y x).flagged = true
          · rw [if_pos hfl] at hstep'
            have := Option.some.inj hstep'
            subst this
            refine check_win_status_win ?_
            obtain ⟨cdx, cdy, cmc, _, _, cfmc, _⟩ := check_win_fields _
            exact (cfmc.symm.trans hc).trans cmc
          · rw [if_neg hfl] at hstep'
            have := Option.some.inj hstep'
            subst this
            refine check_win_status_win ?_
            obtain ⟨cdx, cdy, cmc, _, _, cfmc, _⟩ := check_win_fields _
            exact (cfmc.symm.trans hc).trans cmc
      · rw [if_neg hb] at hstep'
        exact Option.noConfusion hstep'

/-- C4 counterexample: on a freshly created 1 by 1 board with zero mines and
an empty sequence of flag calls, the flagged set already equals the (empty)
set of mine cells — the only cell is neither flagged nor a mine — yet the
status is `Running`, not `Win`: `restart` never runs the win check. -/
theorem flagwin_cex :
    gEx0.mine_count = 0 ∧ (gEx0.board 0 0).flagged = false ∧
    (gEx0.board 0 0).mine = false ∧ gEx0.status = GameStatus.Running := by
  decide

/-- C4 amended: for every board with `M ≥ 1` mines, any sequence of `reveal`
and `flag` calls after which exactly the `M` mine cells are flagged leaves
the game with status `Win` (the flag that completed the set ran the win
check, and a finished game's state is frozen). -/
theorem flag_all_mines_win (set : Settings) (mines : List Nat) (g : Minesweeper)
    (hnd : mines.Nodup) (hbnd : ∀ i ∈ mines, i < set.dx * set.dy)
    (hlen : mines.length = set.mine_count) (hM : 1 ≤ set.mine_count)
    (hre : ReachedFrom (new set mines) g)
    (hflag : ∀ v, v < g.dy → ∀ u, u < g.dx →
      ((g.board v u).flagged = true ↔ (g.board v u).mine = true)) :
    g.status = GameStatus.Win := by
  obtain ⟨fdx, fdy, fmc, fb⟩ := reachedFrom_facts hre
  have hinv := reachedFrom_flagwin hre hM rfl
  apply hinv.2
  have hcount : CountInv g :=
    reached_countInv (reachedFrom_reached (Reached.start set mines) hre)
  have h3 : g.flagged_mines_count = recountFlaggedMines g := hcount.2.2
  have h4 : recountFlaggedMines g = countMines g := by
    unfold recountFlaggedMines countMines
    refine countB_congr fun v u hv hu => ?_
    by_cases hm : (g.board v u).mine = true
    · rw [hm, (hflag v hv u hu).mpr hm]
      rfl
    · rw [Bool.eq_false_iff.mpr hm, Bool.and_false]
  have h5 : countMines g = countMines (new set mines) := by
    unfold countMines
    rw [fdx, fdy]
    exact countB_congr fun v u _ _ => fb v u
  have h6 : countMines (new set mines) = mines.length :=
    restart_countMines _ mines hnd hbnd
  rw [h3, h4, h5, h6, hlen, fmc]
  rfl

theorem flag_all_mines_win_witness : gEx21f.status = GameStatus.Win :=
  flag_all_mines_win ⟨2, 1, 1⟩ [0] gEx21f (by decide) (by decide) (by decide)
    (by decide) (ReachedFrom.flag_step 0 0 ReachedFrom.base rfl) (by decide)

lemma countB_le (dx dy : Nat) (b : Board) (p : Field → Bool) :
    countB dx dy b p ≤ dy * dx := by
  unfold countB
  calc (∑ v ∈ Finset.range dy, ∑ u ∈ Finset.range dx, if p (b v u) then 1 else 0)
      ≤ ∑ v ∈ Finset.range dy, ∑ u ∈ Finset.range dx, 1 :=
        Finset.sum_le_sum fun v _ => Finset.sum_le_sum fun u _ => by split <;> omega
    _ = dy * dx := by simp [Finset.sum_const, Finset.card_range]

lemma unrevCount_le (g : Minesweeper) : unrevCount g ≤ g.dy * g.dx :=
  countB_le g.dx g.dy g.board _

lemma floodInv_unrev_le {g g' : Minesweeper} (h : FloodInv g g') :
    unrevCount g' ≤ unrevCount g := by
  obtain ⟨_, hdx, hdy, _, _, _, _, hrev⟩ := h
  unfold unrevCount
  rw [hdx, hdy]
  refine countB_mono fun v u hv hu hp => ?_
  cases hr : (g.board v u).revealed
  · simp
  · rw [hrev v u hr] at hp
    exact absurd hp (by simp)

lemma unrev_revealCell {g : Minesweeper} {x y : Nat} (hx : x < g.dx)
    (hy : y < g.dy) (hrev : (g.board y x).revealed = false) :
    unrevCount (revealCell g x y) + 1 = unrevCount g := by
  show countB g.dx g.dy (modifyCell g.board x y fun f => { f with revealed := true })
      (fun f => !f.revealed) + 1 = countB g.dx g.dy g.board (fun f => !f.revealed)
  exact countB_update_down hx hy (by simp [hrev]) (by simp)

lemma floodCall_refl (R : Nat → Nat → Prop) (g : Minesweeper) : FloodCall R g g :=
  ⟨floodInv_refl g, fun u v h => Or.inl h,
    fun u v _ _ hn hr _ => absurd hr (by rw [hn]; exact fun hc => Bool.noConfusion hc)⟩

lemma floodCall_comp {R : Nat → Nat → Prop} {g1 g2 g3 : Minesweeper}
    (h12 : FloodCall R g1 g2) (h23 : FloodCall R g2 g3) : FloodCall R g1 g3 := by
  obtain ⟨i12, s12, e12⟩ := h12
  obtain ⟨i23, s23, e23⟩ := h23
  refine ⟨floodInv_trans i12 i23, ?_, ?_⟩
  · intro u v h
    rcases s23 u v h with h | h
    · exact s12 u v h
    · exact Or.inr h
  · intro u v hu hv hn hr ha u' v' hu' hv' hm
    by_cases h2 : (g2.board v u).revealed = true
    · exact i23.2.2.2.2.2.2.2 v' u' (e12 u v hu hv hn h2 ha u' v' hu' hv' hm)
    · have hn2 : (g2.board v u).revealed = false := Bool.eq_false_iff.mpr h2
      have ha2 : (g2.board v u).adjacent = 0 := by
        rw [(i12.2.2.2.2.2.2.1 v u).2.2]
        exact ha
      have hu2 : u < g2.dx := by rw [i12.2.1]; exact hu
      have hv2 : v < g2.dy := by rw [i12.2.2.1]; exact hv
      have hu2' : u' < g2.dx := by rw [i12.2.1]; exact hu'
      have hv2' : v' < g2.dy := by rw [i12.2.2.1]; exact hv'
      exact e23 u v hu2 hv2 hn2 hr ha2 u' v' hu2' hv2' hm

lemma rclosed_transfer {R : Nat → Nat → Prop} {g g' : Minesweeper}
    (hfi : FloodInv g g') (h : RClosed R g) : RClosed R g' := by
  intro u v hu hv hR hadj u' v' hu' hv' hm
  rw [hfi.2.1] at hu hu'
  rw [hfi.2.2.1] at hv hv'
  refine h u v hu hv hR ?_ u' v' hu' hv' hm
  rw [← (hfi.2.2.2.2.2.2.1 v u).2.2]
  exact hadj

lemma runflagged_transfer {R : Nat → Nat → Prop} {g g' : Minesweeper}
    (hfi : FloodInv g g') (h : RUnflagged R g) : RUnflagged R g' := by
  intro u v hu hv hR
  rw [hfi.2.1] at hu
  rw [hfi.2.2.1] at hv
  rw [(hfi.2.2.2.2.2.2.1 v u).2.1]
  exact h u v hu hv hR

lemma zeroRegion_bounds {g : Minesweeper} {sx sy u v : Nat}
    (h : ZeroRegion g sx sy u v) : u < g.dx ∧ v < g.dy := by
  induction h with
  | base hx hy _ => exact ⟨hx, hy⟩
  | step _ _ hu hv _ _ => exact ⟨hu, hv⟩

lemma zeroRegion_zero {g : Minesweeper} {sx sy u v : Nat}
    (h : ZeroRegion g sx sy u v) : (g.board v u).adjacent = 0 := by
  induction h with
  | base _ _ hz => exact hz
  | step _ _ _ _ hz _ => exact hz

lemma mine_neighbors_zero {g : Minesweeper} {u v : Nat}
    (h : mine_neighbors g u v = 0) :
    ∀ u' v', u' < g.dx → v' < g.dy → moore u v u' v' →
      (g.board v' u').mine = false := by
  intro u' v' hu' hv' hm
  unfold mine_neighbors at h
  have h1 := (Finset.sum_eq_zero_iff.mp h) v' (Finset.mem_range.mpr hv')
  have h2 := (Finset.sum_eq_zero_iff.mp h1) u' (Finset.mem_range.mpr hu')
  by_cases hc : (g.board v' u').mine = true
  · rw [if_pos ⟨hc, hm⟩] at h2
    exact absurd h2 (by omega)
  · exact Bool.eq_false_iff.mpr hc

lemma reveal_zeros_go_succ_nested (n : Nat) (g : Minesweeper) (x y : Nat) :
    reveal_zeros_go (n+1) g x y =
      (if (g.board y x).revealed || (g.board y x).flagged then g
       else if (g.board y x).adjacent ≠ 0 then revealCell g x y
       else
         goC n (y < g.dy - 1 ∧ x < g.dx - 1)
           (goC n (y < g.dy - 1)
             (goC n (y < g.dy - 1 ∧ 0 < x)
               (goC n (x < g.dx - 1)
                 (goC n (0 < x)
                   (goC n (0 < y ∧ x < g.dx - 1)
                     (goC n (0 < y)
                       (goC n (0 < y ∧ 0 < x) (revealCell g x y) (x-1) (y-1))
                       x (y-1))
                     (x+1) (y-1))
                   (x-1) y)
                 (x+1) y)
               (x-1) (y+1))
             x (y+1))
           (x+1) (y+1)) := rfl

set_option maxHeartbeats 3200000 in
lemma go_flood_master (R : Nat → Nat → Prop) :
    ∀ (n : Nat) (g : Minesweeper) (x y : Nat),
    unrevCount g < n → x < g.dx → y < g.dy → R x y →
    RClosed R g → RUnflagged R g →
    FloodCall R g (reveal_zeros_go n g x y) ∧
    ((reveal_zeros_go n g x y).board y x).revealed = true := by
  intro n
  induction n with
  | zero =>
    intro g x y hfuel
    exact absurd hfuel (by omega)
  | succ n ih =>
    intro g x y hfuel hx hy hR hcl hfl
    rw [reveal_zeros_go_succ_nested]
    by_cases hrf : ((g.board y x).revealed || (g.board y x).flagged) = true
    · rw [if_pos hrf]
      have hflag : (g.board y x).flagged = false := hfl x y hx hy hR
      have hor : (g.board y x).revealed = true ∨ (g.board y x).flagged = true := by
        simpa using hrf
      have hrev : (g.board y x).revealed = true := by
        rcases hor with h | h
        · exact h
        · rw [hflag] at h
          exact Bool.noConfusion h
      exact ⟨floodCall_refl R g, hrev⟩
    · rw [if_neg hrf]
      simp only [Bool.or_eq_true, not_or, Bool.not_eq_true] at hrf
      by_cases ha : (g.board y x).adjacent ≠ 0
      · rw [if_pos ha]
        refine ⟨⟨floodInv_revealCell g x y, ?_, ?_⟩, ?_⟩
        · intro u v h
          by_cases hc : v = y ∧ u = x
          · right
            rw [hc.2, hc.1]
            exact hR
          · left
            have heq := modifyCell_other g.board x y
              (fun f => { f with revealed := true }) hc
            show (g.board v u).revealed = true
            rw [← heq]
            exact h
        · intro u v hu hv hn hr hadj u' v' hu' hv' hm
          by_cases hc : v = y ∧ u = x
          · refine absurd ?_ ha
            rw [← hc.1, ← hc.2]
            exact hadj
          · have heq := modifyCell_other g.board x y
              (fun f => { f with revealed := true }) hc
            rw [show (revealCell g x y).board v u = g.board v u from heq] at hr
            rw [hn] at hr
            exact Bool.noConfusion hr
        · show ((modifyCell g.board x y fun f => { f with revealed := true }) y x).revealed = true
          rw [modifyCell_same]
      · rw [if_neg ha]
        have ha' : (g.board y x).adjacent = 0 := not_not.mp ha
        have hrev0 : (g.board y x).revealed = false := hrf.1
        have hcnt : unrevCount (revealCell g x y) + 1 = unrevCount g :=
          unrev_revealCell hx hy hrev0
        have hI1 : FloodInv g (revealCell g x y) := floodInv_revealCell g x y
        have hcl1 : RClosed R (revealCell g x y) := rclosed_transfer hI1 hcl
        have hfl1 : RUnflagged R (revealCell g x y) := runflagged_transfer hI1 hfl
        have S : ∀ (c : Prop) [Decidable c] (g' : Minesweeper) (x' y' : Nat),
            FloodInv (revealCell g x y) g' → (c → R x' y') →
            (c → x' < g.dx) → (c → y' < g.dy) →
            FloodCall R g' (goC n c g' x' y') ∧
            (c → ((goC n c g' x' y').board y' x').revealed = true) ∧
            FloodInv (revealCell g x y) (goC n c g' x' y') := by
          intro c inst g' x' y' hfi hcR hcx hcy
          unfold goC
          by_cases hc : c
          · rw [if_pos hc]
            have hfuel' : unrevCount g' < n := by
              have h1 := floodInv_unrev_le hfi
              omega
            have hmain := ih g' x' y' hfuel'
              (by rw [hfi.2.1]; exact hcx hc)
              (by rw [hfi.2.2.1]; exact hcy hc)
              (hcR hc) (rclosed_transfer hfi hcl1) (runflagged_transfer hfi hfl1)
            exact ⟨hmain.1, fun _ => hmain.2,
              floodInv_trans hfi (go_floodInv n g' x' y')⟩
          · rw [if_neg hc]
            exact ⟨floodCall_refl R g', fun hcc => absurd hcc hc, hfi⟩
        set G1 := revealCell g x y with hG1
        set G2 := goC n (0 < y ∧ 0 < x) G1 (x-1) (y-1) with hG2
        set G3 := goC n (0 < y) G2 x (y-1) with hG3
        set G4 := goC n (0 < y ∧ x < g.dx - 1) G3 (x+1) (y-1) with hG4
        set G5 := goC n (0 < x) G4 (x-1) y with hG5
        set G6 := goC n (x < g.dx - 1) G5 (x+1) y with hG6
        set G7 := goC n (y < g.dy - 1 ∧ 0 < x) G6 (x-1) (y+1) with hG7
        set G8 := goC n (y < g.dy - 1) G7 x (y+1) with hG8
        set G9 := goC n (y < g.dy - 1 ∧ x < g.dx - 1) G8 (x+1) (y+1) with hG9
        obtain ⟨F2, r2, I2⟩ := S (0 < y ∧ 0 < x) G1 (x-1) (y-1) (floodInv_refl G1)
          (fun hc => hcl x y hx hy hR ha' (x-1) (y-1) (by omega) (by omega)
            (by unfold moore; omega))
          (fun hc => by omega) (fun hc => by omega)
        rw [← hG2] at F2 r2 I2
        obtain ⟨F3, r3, I3⟩ := S (0 < y) G2 x (y-1) I2
          (fun hc => hcl x y hx hy hR ha' x (y-1) hx (by omega)
            (by unfold moore; omega))
          (fun hc => hx) (fun hc => by omega)
        rw [← hG3] at F3 r3 I3
        obtain ⟨F4, r4, I4⟩ := S (0 < y ∧ x < g.dx - 1) G3 (x+1) (y-1) I3
          (fun hc => hcl x y hx hy hR ha' (x+1) (y-1) (by omega) (by omega)
            (by unfold moore; omega))
          (fun hc => by omega) (fun hc => by omega)
        rw [← hG4] at F4 r4 I4
        obtain ⟨F5, r5, I5⟩ := S (0 < x) G4 (x-1) y I4
          (fun hc => hcl x y hx hy hR ha' (x-1) y (by omega) hy
            (by unfold moore; omega))
          (fun hc => by omega) (fun hc => hy)
        rw [← hG5] at F5 r5 I5
        obtain ⟨F6, r6, I6⟩ := S (x < g.dx - 1) G5 (x+1) y I5
          (fun hc => hcl x y hx hy hR ha' (x+1) y (by omega) hy
            (by unfold moore; omega))
          (fun hc => by omega) (fun hc => hy)
        rw [← hG6] at F6 r6 I6
        obtain ⟨F7, r7, I7⟩ := S (y < g.dy - 1 ∧ 0 < x) G6 (x-1) (y+1) I6
          (fun hc => hcl x y hx hy hR ha' (x-1) (y+1) (by omega) (by omega)
            (by unfold moore; omega))
          (fun hc => by omega) (fun hc => by omega)
        rw [← hG7] at F7 r7 I7
        obtain ⟨F8, r8, I8⟩ := S (y < g.dy - 1) G7 x (y+1) I7
          (fun hc => hcl x y hx hy hR ha' x (y+1) hx (by omega)
            (by unfold moore; omega))
          (fun hc => hx) (fun hc => by omega)
        rw [← hG8] at F8 r8 I8
        obtain ⟨F9, r9, I9⟩ := S (y < g.dy - 1 ∧ x < g.dx - 1) G8 (x+1) (y+1) I8
          (fun hc => hcl x y hx hy hR ha' (x+1) (y+1) (by omega) (by omega)
            (by unfold moore; omega))
          (fun hc => by omega) (fun hc => by omega)
        rw [← hG9] at F9 r9 I9
        have M9 : FloodInv G8 G9 := F9.1
        have M8 : FloodInv G7 G9 := floodInv_trans F8.1 M9
        have M7 : FloodInv G6 G9 := floodInv_trans F7.1 M8
        have M6 : FloodInv G5 G9 := floodInv_trans F6.1 M7
        have M5 : FloodInv G4 G9 := floodInv_trans F5.1 M6
        have M4 : FloodInv G3 G9 := floodInv_trans F4.1 M5
        have M3 : FloodInv G2 G9 := floodInv_trans F3.1 M4
        have M2 : FloodInv G1 G9 := floodInv_trans F2.1 M3
        have C9 : FloodCall R G1 G9 := floodCall_comp F2 (floodCall_comp F3
          (floodCall_comp F4 (floodCall_comp F5 (floodCall_comp F6
            (floodCall_comp F7 (floodCall_comp F8 F9))))))
        have hrev1 : (G1.board y x).revealed = true := by
          rw [hG1]
          show ((modifyCell g.board x y fun f => { f with revealed := true }) y x).revealed = true
          rw [modifyCell_same]
        refine ⟨⟨floodInv_trans hI1 M2, ?_, ?_⟩, ?_⟩
        · intro u v h
          rcases C9.2.1 u v h with h1 | h1
          · by_cases hc : v = y ∧ u = x
            · right
              rw [hc.2, hc.1]
              exact hR
            · left
              have heq := modifyCell_other g.board x y
                (fun f => { f with revealed := true }) hc
              show (g.board v u).revealed = true
              rw [← heq]
              rw [hG1] at h1
              exact h1
          · exact Or.inr h1
        · intro u v hu hv hn hr hadj u' v' hu' hv' hm
          by_cases hcxy : v = y ∧ u = x
          · obtain ⟨hcv, hcu⟩ := hcxy
            have hpos : (u' + 1 = x ∧ v' + 1 = y) ∨ (u' = x ∧ v' + 1 = y)
                ∨ (u' = x + 1 ∧ v' + 1 = y) ∨ (u' + 1 = x ∧ v' = y)
                ∨ (u' = x + 1 ∧ v' = y) ∨ (u' + 1 = x ∧ v' = y + 1)
                ∨ (u' = x ∧ v' = y + 1) ∨ (u' = x + 1 ∧ v' = y + 1) := by
              unfold moore at hm
              omega
            rcases hpos with h | h | h | h | h | h | h | h
            · have hc : 0 < y ∧ 0 < x := by omega
              have hw := M3.2.2.2.2.2.2.2 (y-1) (x-1) (r2 hc)
              rw [show u' = x - 1 by omega, show v' = y - 1 by omega]
              exact hw
            · have hc : 0 < y := by omega
              have hw := M4.2.2.2.2.2.2.2 (y-1) x (r3 hc)
              rw [show u' = x by omega, show v' = y - 1 by omega]
              exact hw
            · have hc : 0 < y ∧ x < g.dx - 1 := by omega
              have hw := M5.2.2.2.2.2.2.2 (y-1) (x+1) (r4 hc)
              rw [show u' = x + 1 by omega, show v' = y - 1 by omega]
              exact hw
            · have hc : 0 < x := by omega
              have hw := M6.2.2.2.2.2.2.2 y (x-1) (r5 hc)
              rw [show u' = x - 1 by omega, show v' = y by omega]
              exact hw
            · have hc : x < g.dx - 1 := by omega
              have hw := M7.2.2.2.2.2.2.2 y (x+1) (r6 hc)
              rw [show u' = x + 1 by omega, show v' = y by omega]
              exact hw
            · have hc : y < g.dy - 1 ∧ 0 < x := by omega
              have hw := M8.2.2.2.2.2.2.2 (y+1) (x-1) (r7 hc)
              rw [show u' = x - 1 by omega, show v' = y + 1 by omega]
              exact hw
            · have hc : y < g.dy - 1 := by omega
              have hw := M9.2.2.2.2.2.2.2 (y+1) x (r8 hc)
              rw [show u' = x by omega, show v' = y + 1 by omega]
              exact hw
            · have hc : y < g.dy - 1 ∧ x < g.dx - 1 := by omega
              have hw := r9 hc
              rw [show u' = x + 1 by omega, show v' = y + 1 by omega]
              exact hw
          · have heq := modifyCell_other g.board x y
              (fun f => { f with revealed := true }) hcxy
            have hn1 : (G1.board v u).revealed = false := by
              rw [hG1]
              rw [show (revealCell g x y).board v u = g.board v u from heq]
              exact hn
            have hadj1 : (G1.board v u).adjacent = 0 := by
              rw [hG1]
              rw [show (revealCell g x y).board v u = g.board v u from heq]
              exact hadj
            exact C9.2.2 u v hu hv hn1 hr hadj1 u' v' hu' hv' hm
        · exact M2.2.2.2.2.2.2.2 y x hrev1

/-- C3 counterexample: on the 4 by 1 board with its mine at `(3, 0)`, the
cells `(0, 0)` and `(1, 0)` form a zero-adjacency region; after flagging
`(1, 0)`, revealing `(0, 0)` satisfies every hypothesis of the claim (the
game is `Running`, the target is in bounds, unrevealed, unflagged, and has
adjacency 0), and `(1, 0)` belongs to the zero region of `(0, 0)`, yet
`(1, 0)` is not revealed: the flood fill stops at flagged cells. -/
theorem flood_blocked_cex :
    gEx4f.status = GameStatus.Running ∧
    (gEx4f.board 0 0).revealed = false ∧ (gEx4f.board 0 0).flagged = false ∧
    (gEx4f.board 0 0).mine = false ∧ (gEx4f.board 0 0).adjacent = 0 ∧
    ZeroRegion gEx4f 0 0 1 0 ∧
    reveal gEx4f 0 0 = some gEx4r ∧
    (gEx4r.board 0 1).revealed = false :=
  ⟨by decide, by decide, by decide, by decide, by decide,
    ZeroRegion.step (ZeroRegion.base (by decide) (by decide) (by decide))
      (by decide) (by decide) (by decide) (by decide),
    rfl, by decide⟩

/-- C3 amended: when no cell of the board is yet revealed or flagged (for
example right after a restart) and the adjacency counts are consistent with
the mine layout, revealing an in-bounds non-mine cell with adjacency 0
reveals exactly the maximal 8-connected zero-adjacency region containing it
together with that region's border of nonzero-adjacency cells, and none of
the revealed cells is a mine.  (When other cells are already revealed or
flagged the traversal stops at them and can reveal less.) -/
theorem flood_reveal_exact (g : Minesweeper) (x y : Nat)
    (hrun : g.status = GameStatus.Running)
    (hx : x < g.dx) (hy : y < g.dy)
    (hfresh : ∀ v, v < g.dy → ∀ u, u < g.dx →
      (g.board v u).revealed = false ∧ (g.board v u).flagged = false)
    (hadj : ∀ v, v < g.dy → ∀ u, u < g.dx →
      (g.board v u).adjacent = mine_neighbors g u v)
    (hmine : (g.board y x).mine = false)
    (hzero : (g.board y x).adjacent = 0) :
    ∃ A, reveal g x y = some A ∧
      (∀ u v, u < g.dx → v < g.dy →
        ((A.board v u).revealed = true ↔
          ZeroRegion g x y u v ∨ Border g x y u v)) ∧
      (∀ u v, u < g.dx → v < g.dy → (A.board v u).revealed = true →
        (A.board v u).mine = false) := by
  have hnr : ¬g.status ≠ GameStatus.Running := fun hc => hc hrun
  have hb : y < g.dy ∧ x < g.dx := ⟨hy, hx⟩
  have hfr := hfresh y hy x hx
  have hreveal : reveal g x y = some (check_win (reveal_zeros g x y)) := by
    unfold reveal
    rw [if_neg hnr, if_pos hb,
      if_neg (by simp [hfr.1, hfr.2]), if_neg (by simp [hmine]), if_pos hzero]
  refine ⟨check_win (reveal_zeros g x y), hreveal, ?_, ?_⟩
  all_goals {
    have hclosed : RClosed (fun u v => ZeroRegion g x y u v ∨ Border g x y u v) g := by
      intro u v hu hv hR hadj0 u' v' hu' hv' hm
      have hzr : ZeroRegion g x y u v := by
        rcases hR with h | h
        · exact h
        · exact absurd hadj0 h.2.2.1
      by_cases hz' : (g.board v' u').adjacent = 0
      · exact Or.inl (ZeroRegion.step hzr hm hu' hv' hz')
      · exact Or.inr ⟨hu', hv', hz', u, v, hzr, hm⟩
    have hunflag : RUnflagged (fun u v => ZeroRegion g x y u v ∨ Border g x y u v) g :=
      fun u v hu hv _ => (hfresh v hv u hu).2
    have hstart : ZeroRegion g x y x y ∨ Border g x y x y :=
      Or.inl (ZeroRegion.base hx hy hzero)
    have hfuel : unrevCount g < g.dx * g.dy + 1 := by
      have h1 := unrevCount_le g
      have hcomm : g.dy * g.dx = g.dx * g.dy := Nat.mul_comm _ _
      omega
    obtain ⟨FC, hstartrev⟩ :=
      go_flood_master (fun u v => ZeroRegion g x y u v ∨ Border g x y u v)
        (g.dx * g.dy + 1) g x y hfuel hx hy hstart hclosed hunflag
    obtain ⟨_, _, _, _, _, _, cwb⟩ := check_win_fields (reveal_zeros g x y)
    have hforward : ∀ u v, ZeroRegion g x y u v →
        ((reveal_zeros g x y).board v u).revealed = true := by
      intro u v h
      induction h with
      | base _ _ _ => exact hstartrev
      | step hprev hm hu' hv' hz ih =>
        rename_i a b c d
        obtain ⟨hax, hby⟩ := zeroRegion_bounds hprev
        exact FC.2.2 a b hax hby (hfresh b hby a hax).1 ih
          (zeroRegion_zero hprev) c d hu' hv' hm
    first
    | {
        intro u v hu hv
        constructor
        · intro hrev'
          rw [cwb] at hrev'
          rcases FC.2.1 u v hrev' with h | h
          · rw [(hfresh v hv u hu).1] at h
            exact Bool.noConfusion h
          · exact h
        · intro h
          rw [cwb]
          rcases h with h | h
          · exact hforward u v h
          · obtain ⟨hu', hv', hnz, a, b, hzr, hm⟩ := h
            obtain ⟨hax, hby⟩ := zeroRegion_bounds hzr
            exact FC.2.2 a b hax hby (hfresh b hby a hax).1
              (hforward a b hzr) (zeroRegion_zero hzr) u v hu' hv' hm
      }
    | {
        intro u v hu hv hrev'
        rw [cwb] at hrev'
        have hbm : ((check_win (reveal_zeros g x y)).board v u).mine
            = (g.board v u).mine := by
          rw [cwb]
          exact (FC.1.2.2.2.2.2.2.1 v u).1
        rw [hbm]
        rcases FC.2.1 u v hrev' with h | h
        · rw [(hfresh v hv u hu).1] at h
          exact Bool.noConfusion h
        · rcases h with h | h
          · cases h with
            | base _ _ _ => exact hmine
            | step hprev hm hu' hv' hz0 =>
              rename_i a b
              obtain ⟨hax, hby⟩ := zeroRegion_bounds hprev
              have h0 : mine_neighbors g a b = 0 := by
                rw [← hadj b hby a hax]
                exact zeroRegion_zero hprev
              exact mine_neighbors_zero h0 u v hu' hv' hm
          · obtain ⟨hu', hv', hnz, a, b, hzr, hm⟩ := h
            obtain ⟨hax, hby⟩ := zeroRegion_bounds hzr
            have h0 : mine_neighbors g a b = 0 := by
              rw [← hadj b hby a hax]
              exact zeroRegion_zero hzr
            exact mine_neighbors_zero h0 u v hu' hv' hm
      }
  }

theorem flood_reveal_exact_witness :
    ∃ A, reveal gEx4 0 0 = some A ∧
      (∀ u v, u < gEx4.dx → v < gEx4.dy →
        ((A.board v u).revealed = true ↔
          ZeroRegion gEx4 0 0 u v ∨ Border gEx4 0 0 u v)) ∧
      (∀ u v, u < gEx4.dx → v < gEx4.dy → (A.board v u).revealed = true →
        (A.board v u).mine = false) :=
  flood_reveal_exact gEx4 0 0 rfl (by decide) (by decide) (by decide)
    (by decide) (by decide) (by decide)

end Mines
